import Mathlib

/-!
Verification development for the `cascade` cascading-encryption library.

The repository contains two variants of the same design:

* variant A (libsodium-based): `src/src/cascade.ts`, `src/src/aesGcm.ts`,
  the XChaCha20-Poly1305 suite, `argon2`, the BLAKE2B `kdf` with the
  8-character context strings, and `secureWipe` via `sodium.memzero`;
* variant B (WebCrypto-based): `src/unnamed/part_000` (cascade factory),
  `src/unnamed/part_008` (AES-256-CTR-HMAC suite), `src/src/pbkdf2.ts`,
  `src/src/hkdf.ts`.

Byte buffers are modelled as `List Nat`; randomness as an infinite entropy
tape `Nat → Nat` together with a running read position (every call to the
CSPRNG consumes the next `n` bytes of the tape).  The out-of-scope
cryptographic primitives (AES-GCM core, XChaCha20 core, AES-CTR keystream,
HMAC, BLAKE2B-KDF, Argon2id, PBKDF2, HKDF) are abstract functions bundled
in a `Prims` structure; the contracts the library relies on (round-trip,
deterministic output lengths) are collected in `PrimsOk`.  Everything the
repository itself implements (framing, validation, cascading, key
hierarchy, wiping) is translated directly from the source.

Buffer wiping is an in-place effect; operations that the specification
requires to wipe their locals are modelled to additionally return the
final contents of those local buffers (`DpkLocals`, `EncLocals`,
`DecLocals`), `none` meaning the buffer was never allocated.
-/

/-- Byte buffers (`Uint8Array`) are lists of naturals. -/
abbrev Bytes := List Nat

/-- An infinite entropy stream: byte `i` of the OS CSPRNG output. -/
abbrev Tape := Nat → Nat

/-- Model of `sodium.randombytes_buf` / `crypto.getRandomValues`: read `n`
fresh bytes from the entropy tape starting at `pos`, returning the bytes
and the new position. -/
def randomBytes (R : Tape) (pos n : Nat) : Bytes × Nat :=
  ((List.range n).map fun j => R (pos + j), pos + n)

/-- Errors thrown by the library.  Each constructor corresponds to a
`throw new Error(...)` site in the source (or to the failure of a backend
primitive, tagged with the name of the suite that invoked it).  There is
deliberately no wrapper constructor: the source never wraps errors. -/
inductive CErr where
  | invalidConfig (msg : String)
  | invalidKey (alg : String) (expected got : Nat)
  | tooShort (alg : String)
  | authFail (alg : String)
  | invalidParameter (msg : String)
  | kdfFailure
  deriving DecidableEq, Repr

/-- Except values with decidable component equality have decidable
equality; used to evaluate the library on concrete inputs. -/
instance instDecEqExcept {e a : Type} [DecidableEq e] [DecidableEq a] :
    DecidableEq (Except e a) := fun x y =>
  match x, y with
  | .error u, .error v =>
    if h : u = v then .isTrue (by rw [h]) else .isFalse (fun hc => h (by injection hc))
  | .ok u, .ok v =>
    if h : u = v then .isTrue (by rw [h]) else .isFalse (fun hc => h (by injection hc))
  | .error _, .ok _ => .isFalse (fun hc => Except.noConfusion hc)
  | .ok _, .error _ => .isFalse (fun hc => Except.noConfusion hc)

/-- The out-of-scope cryptographic primitives the library invokes.
Arguments follow the underlying APIs: for the AEAD cores
(key, nonce, data); `kdf` is libsodium's `crypto_kdf_derive_from_key`
(key, context, subkeyId, length), which can fail (modelled by `Option`);
`pwhash` is Argon2id (password, salt, opsLimit, memLimit);
`pbkdf2` is PBKDF2-SHA-512 (password, salt, iterations);
`hkdf` is HKDF-SHA-256 (material, info, length). -/
structure Prims where
  aesGcmEnc : Bytes → Bytes → Bytes → Bytes
  aesGcmDec : Bytes → Bytes → Bytes → Option Bytes
  xchachaEnc : Bytes → Bytes → Bytes → Bytes
  xchachaDec : Bytes → Bytes → Bytes → Option Bytes
  aesCtr : Bytes → Bytes → Bytes → Bytes
  hmacSha256 : Bytes → Bytes → Bytes
  kdf : Bytes → String → Nat → Nat → Option Bytes
  pwhash : Bytes → Bytes → Nat → Nat → Bytes
  pbkdf2 : Bytes → Bytes → Nat → Bytes
  hkdf : Bytes → String → Nat → Bytes

/-- Contracts of the external primitives that the library's documentation
relies on: AEAD cores append a 16-byte tag and invert encryption; AES-CTR
is a length-preserving involution for a fixed counter; HMAC-SHA-256 yields
32 bytes; successful KDF output has the requested length; Argon2id and
PBKDF2 produce 32-byte keys. -/
structure PrimsOk (P : Prims) : Prop where
  gcm_len : ∀ k iv d, (P.aesGcmEnc k iv d).length = d.length + 16
  gcm_dec : ∀ k iv d, P.aesGcmDec k iv (P.aesGcmEnc k iv d) = some d
  xch_len : ∀ k n d, (P.xchachaEnc k n d).length = d.length + 16
  xch_dec : ∀ k n d, P.xchachaDec k n (P.xchachaEnc k n d) = some d
  ctr_len : ∀ k c d, (P.aesCtr k c d).length = d.length
  ctr_inv : ∀ k c d, P.aesCtr k c (P.aesCtr k c d) = d
  hmac_len : ∀ k m, (P.hmacSha256 k m).length = 32
  kdf_len : ∀ k c i L out, P.kdf k c i L = some out → out.length = L
  pwhash_len : ∀ pw s o m, (P.pwhash pw s o m).length = 32
  pbkdf2_len : ∀ pw s it, (P.pbkdf2 pw s it).length = 32

/-- Libsodium's `crypto_kdf_derive_from_key` never fails for the in-range
subkey lengths the library requests; stated as unconditional totality. -/
def KdfTotal (P : Prims) : Prop :=
  ∀ k c i L, (P.kdf k c i L).isSome

/-- WebCrypto's HKDF deriveBits yields exactly the requested number of
bytes for the lengths the library asks for; stated as an output-length
contract on the abstract primitive. -/
def HkdfLen (P : Prims) : Prop :=
  ∀ m info L, (P.hkdf m info L).length = L

/-- Model of `secureWipe` (`sodium.memzero` / `buffer.fill(0)`): every
byte of the buffer becomes `0`, the length is unchanged. -/
def secureWipe (b : Bytes) : Bytes := b.map fun _ => 0

theorem secureWipe_eq (b : Bytes) : secureWipe b = List.replicate b.length 0 := by
  simp [secureWipe, List.map_const']

-- ---------------------------------------------------------------------------
-- Variant A cipher suites (src/src/aesGcm.ts, xchacha20 suite in part_005)
-- ---------------------------------------------------------------------------

/-- Algorithms of the libsodium variant (`Algorithm` in part_009). -/
inductive AlgA where
  | gcm   -- 'AES-256-GCM'
  | xch   -- 'XChaCha20-Poly1305'
  deriving DecidableEq, Repr

/-- Display name used in error messages, as in the source files. -/
def algNameA : AlgA → String
  | .gcm => "AES-256-GCM"
  | .xch => "XChaCha20-Poly1305"

/-- Per-suite `keyLength` (32 for both variant-A suites). -/
def keyLengthA : AlgA → Nat
  | .gcm => 32
  | .xch => 32

/-- Model of `aesGcm.encrypt` (src/src/aesGcm.ts): validate the key
length, draw a 12-byte random IV, encrypt, return `iv ++ ciphertext`
(the GCM core output already carries the 16-byte tag). -/
def aesGcmEncrypt (P : Prims) (data key : Bytes) (R : Tape) (pos : Nat) :
    Except CErr (Bytes × Nat) :=
  if key.length ≠ 32 then .error (.invalidKey "AES-256-GCM" 32 key.length)
  else
    let (iv, pos') := randomBytes R pos 12
    .ok (iv ++ P.aesGcmEnc key iv data, pos')

/-- Model of `aesGcm.decrypt`: validate the key length, reject blobs
shorter than IV+tag (28 bytes), split off the 12-byte IV and decrypt;
a backend authentication failure surfaces as `authFail`. -/
def aesGcmDecrypt (P : Prims) (data key : Bytes) : Except CErr Bytes :=
  if key.length ≠ 32 then .error (.invalidKey "AES-256-GCM" 32 key.length)
  else if data.length < 28 then .error (.tooShort "AES-256-GCM")
  else
    match P.aesGcmDec key (data.take 12) (data.drop 12) with
    | some pt => .ok pt
    | none => .error (.authFail "AES-256-GCM")

/-- Model of `xchacha20.encrypt` (part_005): validate the key length,
draw a 24-byte random nonce, return `nonce ++ ciphertext` (the libsodium
AEAD output already carries the 16-byte Poly1305 tag). -/
def xchachaEncrypt (P : Prims) (data key : Bytes) (R : Tape) (pos : Nat) :
    Except CErr (Bytes × Nat) :=
  if key.length ≠ 32 then .error (.invalidKey "XChaCha20-Poly1305" 32 key.length)
  else
    let (nonce, pos') := randomBytes R pos 24
    .ok (nonce ++ P.xchachaEnc key nonce data, pos')

/-- Model of `xchacha20.decrypt`: validate the key length, reject blobs
shorter than nonce+tag (40 bytes), split off the 24-byte nonce and
decrypt. -/
def xchachaDecrypt (P : Prims) (data key : Bytes) : Except CErr Bytes :=
  if key.length ≠ 32 then .error (.invalidKey "XChaCha20-Poly1305" 32 key.length)
  else if data.length < 40 then .error (.tooShort "XChaCha20-Poly1305")
  else
    match P.xchachaDec key (data.take 24) (data.drop 24) with
    | some pt => .ok pt
    | none => .error (.authFail "XChaCha20-Poly1305")

/-- `SUITES` dispatch of variant A, encryption direction. -/
def suiteEncryptA (P : Prims) : AlgA → Bytes → Bytes → Tape → Nat →
    Except CErr (Bytes × Nat)
  | .gcm => aesGcmEncrypt P
  | .xch => xchachaEncrypt P

/-- `SUITES` dispatch of variant A, decryption direction. -/
def suiteDecryptA (P : Prims) : AlgA → Bytes → Bytes → Except CErr Bytes
  | .gcm => aesGcmDecrypt P
  | .xch => xchachaDecrypt P

-- ---------------------------------------------------------------------------
-- Variant A cascade engine (src/src/cascade.ts, cascadeEncrypt/cascadeDecrypt)
-- ---------------------------------------------------------------------------

/-- Model of `cascadeEncrypt`: fold the suites over the data in layer
order 0..L-1.  The source iterates index `i` over `layers` using
`layerKeys[i]`; both lists always have equal length at every call site,
so they are passed here already zipped into (algorithm, raw key) pairs. -/
def cascadeEncryptA (P : Prims) :
    List (AlgA × Bytes) → Bytes → Tape → Nat → Except CErr (Bytes × Nat)
  | [], data, _, pos => .ok (data, pos)
  | (a, key) :: rest, data, R, pos =>
    match suiteEncryptA P a data key R pos with
    | .error e => .error e
    | .ok (c, pos') => cascadeEncryptA P rest c R pos'

/-- Model of `cascadeDecrypt`: open the layers in reverse order L-1..0,
so the head layer (applied first when sealing) is opened last. -/
def cascadeDecryptA (P : Prims) :
    List (AlgA × Bytes) → Bytes → Except CErr Bytes
  | [], data => .ok data
  | (a, key) :: rest, data =>
    match cascadeDecryptA P rest data with
    | .error e => .error e
    | .ok inner => suiteDecryptA P a inner key

/-- Model of the variant-A `cascade(config)` factory validation
(src/src/cascade.ts lines 150-166): reject empty lists and lists longer
than `MAX_LAYERS = 10`; every member of the closed `Algorithm` enum is a
known suite, so `getSuite` never throws here. -/
def cascadeA (layers : List AlgA) : Except CErr (List AlgA) :=
  if layers.length = 0 then
    .error (.invalidConfig "Cascade requires at least one layer")
  else if layers.length > 10 then
    .error (.invalidConfig
      ("Cascade supports at most 10 layers (got " ++ toString layers.length ++ ")"))
  else .ok layers

-- ---------------------------------------------------------------------------
-- Variant B cipher suites and cascade (part_000, part_008)
-- ---------------------------------------------------------------------------

/-- Algorithms of the WebCrypto variant (`Algorithm` in src/src/types.ts). -/
inductive AlgB where
  | gcm      -- 'AES-256-GCM'
  | ctrHmac  -- 'AES-256-CTR-HMAC'
  deriving DecidableEq, Repr

/-- Per-suite `keyMaterialLength` (32 for AES-GCM, 64 for CTR+HMAC). -/
def keyMaterialLengthB : AlgB → Nat
  | .gcm => 32
  | .ctrHmac => 64

/-- Model of `aesCtrHmac.encrypt` (part_008): split the 64-byte material
into the AES-CTR key (first 32 bytes, `importKeys`) and the HMAC key
(last 32), draw a 16-byte random counter block, encrypt with AES-CTR
(length-preserving), MAC `counter ++ ciphertext`, and return
`counter ++ ciphertext ++ mac`. -/
def aesCtrHmacEncrypt (P : Prims) (data material : Bytes) (R : Tape) (pos : Nat) :
    Except CErr (Bytes × Nat) :=
  let aesKey := material.take 32
  let hmacKey := material.drop 32
  let (counter, pos') := randomBytes R pos 16
  let ciphertext := P.aesCtr aesKey counter data
  let mac := P.hmacSha256 hmacKey (counter ++ ciphertext)
  .ok (counter ++ ciphertext ++ mac, pos')

/-- Model of `constantTimeEqual` (part_008): accumulate the XOR of every
byte pair with bitwise OR and compare the accumulator with zero (after a
length check). -/
def constantTimeEqual (a b : Bytes) : Bool :=
  a.length = b.length &&
    ((a.zip b).foldl (fun r p => r ||| (p.1 ^^^ p.2)) 0) = 0

/-- Model of `aesCtrHmac.decrypt`: reject blobs shorter than
counter+MAC (48 bytes), split counter / ciphertext / received MAC,
recompute the HMAC over `counter ++ ciphertext`, compare in constant
time before decrypting, and only then run AES-CTR. -/
def aesCtrHmacDecrypt (P : Prims) (data material : Bytes) : Except CErr Bytes :=
  let aesKey := material.take 32
  let hmacKey := material.drop 32
  if data.length < 48 then .error (.tooShort "AES-256-CTR-HMAC")
  else
    let counter := data.take 16
    let ciphertext := (data.drop 16).take (data.length - 48)
    let receivedMac := data.drop (data.length - 32)
    let expectedMac := P.hmacSha256 hmacKey (counter ++ ciphertext)
    if constantTimeEqual receivedMac expectedMac then
      .ok (P.aesCtr aesKey counter ciphertext)
    else .error (.authFail "AES-256-CTR-HMAC")

/-- `SUITES` dispatch of variant B, encryption direction.  Variant B's
AES-GCM suite file is not present under src/; its wire format
(12-byte IV, 16-byte tag) is documented in the README (part_010) and is
identical to src/src/aesGcm.ts, whose model is reused here. -/
def suiteEncryptB (P : Prims) : AlgB → Bytes → Bytes → Tape → Nat →
    Except CErr (Bytes × Nat)
  | .gcm => aesGcmEncrypt P
  | .ctrHmac => aesCtrHmacEncrypt P

/-- `SUITES` dispatch of variant B, decryption direction. -/
def suiteDecryptB (P : Prims) : AlgB → Bytes → Bytes → Except CErr Bytes
  | .gcm => aesGcmDecrypt P
  | .ctrHmac => aesCtrHmacDecrypt P

/-- Model of variant B's `cascadeEncrypt` (part_000): identical loop
structure to variant A over the (algorithm, key material) pairs. -/
def cascadeEncryptB (P : Prims) :
    List (AlgB × Bytes) → Bytes → Tape → Nat → Except CErr (Bytes × Nat)
  | [], data, _, pos => .ok (data, pos)
  | (a, key) :: rest, data, R, pos =>
    match suiteEncryptB P a data key R pos with
    | .error e => .error e
    | .ok (c, pos') => cascadeEncryptB P rest c R pos'

/-- Model of the variant-B `cascade(config)` factory validation
(part_000 lines 139-149): it rejects only the empty list; there is no
maximum-layer check in this variant. -/
def cascadeB (layers : List AlgB) : Except CErr (List AlgB) :=
  if layers.length = 0 then
    .error (.invalidConfig "Cascade requires at least one layer")
  else .ok layers

/-- Model of `pbkdf2` (src/src/pbkdf2.ts): use the provided salt, or draw
a random 32-byte one; derive 32 bytes via PBKDF2-SHA-512.  The source
performs no validation of the salt length or the iteration count. -/
def pbkdf2Derive (P : Prims) (password : Bytes) (saltOpt : Option Bytes)
    (iterations : Nat) (R : Tape) (pos : Nat) : Bytes × Bytes × Nat :=
  let (salt, pos') :=
    match saltOpt with
    | some s => (s, pos)
    | none => randomBytes R pos 32
  (P.pbkdf2 password salt iterations, salt, pos')

-- ---------------------------------------------------------------------------
-- Variant B key hierarchy (part_000)
-- ---------------------------------------------------------------------------

/-- Model of variant B's `cascadeDecrypt` (part_000): open the layers in
reverse order L-1..0, identical loop structure to variant A. -/
def cascadeDecryptB (P : Prims) :
    List (AlgB × Bytes) → Bytes → Except CErr Bytes
  | [], data => .ok data
  | (a, key) :: rest, data =>
    match cascadeDecryptB P rest data with
    | .error e => .error e
    | .ok inner => suiteDecryptB P a inner key

/-- One derived variant-B cascade layer key (`LayerKeys` in
src/src/types.ts).  `importKeys` turns the HKDF output into opaque
`CryptoKey` handles over the same bytes; the model keeps the raw
subkey material, which the suite models split exactly as `importKeys`
does. -/
structure LayerKeyB where
  algorithm : AlgB
  keys : Bytes
  deriving DecidableEq, Repr

/-- Zip a variant-B layer list with the key material of its layer-key
records, as the cascade loops do via parallel indexing. -/
def zipKeysB (layers : List AlgB) (lks : List LayerKeyB) : List (AlgB × Bytes) :=
  layers.zip (lks.map LayerKeyB.keys)

/-- Loop body of variant B's `deriveLayerKeys` (part_000 lines 77-95):
for each remaining layer, derive `hkdf(rawMaterial,
"cascade-" ++ purpose ++ "-layer-" ++ i, keyMaterialLength)` and import
it; `i` is the index of the head layer in the original list.  This
derivation has no failure path in the source. -/
def deriveLayerKeysBGo (P : Prims) (rawMaterial : Bytes) (purpose : String) :
    Nat → List AlgB → List LayerKeyB
  | _, [] => []
  | i, a :: rest =>
    ⟨a, P.hkdf rawMaterial ("cascade-" ++ purpose ++ "-layer-" ++ toString i)
        (keyMaterialLengthB a)⟩
      :: deriveLayerKeysBGo P rawMaterial purpose (i + 1) rest

/-- Model of variant B's `deriveLayerKeys`. -/
def deriveLayerKeysB (P : Prims) (rawMaterial : Bytes) (layers : List AlgB)
    (purpose : String) : List LayerKeyB :=
  deriveLayerKeysBGo P rawMaterial purpose 0 layers

/-- Parameters of variant B's `derivePasswordKey` (`PasswordKeyParams`
in src/src/types.ts). -/
structure PasswordKeyParamsB where
  password : Bytes
  iterations : Nat
  salt : Option Bytes
  deriving DecidableEq, Repr

/-- A variant-B password-derived key (`PasswordKey` in src/src/types.ts). -/
structure PasswordKeyB where
  salt : Bytes
  iterations : Nat
  layerKeys : List LayerKeyB
  deriving DecidableEq, Repr

/-- A variant-B master key. -/
structure MasterKeyB where
  layerKeys : List LayerKeyB
  deriving DecidableEq, Repr

/-- A variant-B encrypted data bundle. -/
structure EncryptedDataB where
  encryptedContentKey : Bytes
  ciphertext : Bytes
  deriving DecidableEq, Repr

/-- Final contents of variant-B `derivePasswordKey`'s PBKDF2 output
buffer.  part_000 contains no `secureWipe` and no `try/finally`, so the
buffer keeps the derived key. -/
structure DpkLocalsB where
  base : Bytes
  deriving DecidableEq, Repr

/-- Model of variant B's `derivePasswordKey` (part_000 lines 156-164):
run PBKDF2, derive the per-layer password subkeys via HKDF, and return —
the base key is NOT wiped (the second component records its final,
unchanged contents). -/
def derivePasswordKeyB (P : Prims) (layers : List AlgB)
    (params : PasswordKeyParamsB) (R : Tape) (pos : Nat) :
    (PasswordKeyB × Nat) × DpkLocalsB :=
  let (key, salt, pos') :=
    pbkdf2Derive P params.password params.salt params.iterations R pos
  (({ salt := salt, iterations := params.iterations,
      layerKeys := deriveLayerKeysB P key layers "password" }, pos'), ⟨key⟩)

/-- Model of variant B's `generateMasterKey` (part_000 lines 170-196):
draw 32 random bytes, derive the master layer subkeys, seal the raw
material through the password-key cascade (no wiping in this variant). -/
def generateMasterKeyB (P : Prims) (layers : List AlgB) (pk : PasswordKeyB)
    (R : Tape) (pos : Nat) : Except CErr (MasterKeyB × Bytes × Nat) :=
  let (rawMaster, pos₁) := randomBytes R pos 32
  let masterLayerKeys := deriveLayerKeysB P rawMaster layers "master"
  match cascadeEncryptB P (zipKeysB layers pk.layerKeys) rawMaster R pos₁ with
  | .error e => .error e
  | .ok (emk, pos₂) => .ok (⟨masterLayerKeys⟩, emk, pos₂)

/-- Model of variant B's `unlockMasterKey` (part_000 lines 202-221). -/
def unlockMasterKeyB (P : Prims) (layers : List AlgB) (emk : Bytes)
    (pk : PasswordKeyB) : Except CErr MasterKeyB :=
  match cascadeDecryptB P (zipKeysB layers pk.layerKeys) emk with
  | .error e => .error e
  | .ok rawMaster => .ok ⟨deriveLayerKeysB P rawMaster layers "master"⟩

/-- Model of variant B's `encrypt` (part_000 lines 227-254). -/
def encryptB (P : Prims) (layers : List AlgB) (data : Bytes)
    (mk : MasterKeyB) (R : Tape) (pos : Nat) :
    Except CErr (EncryptedDataB × Nat) :=
  let (rawContent, pos₁) := randomBytes R pos 32
  let contentLayerKeys := deriveLayerKeysB P rawContent layers "content"
  match cascadeEncryptB P (zipKeysB layers mk.layerKeys) rawContent R pos₁ with
  | .error e => .error e
  | .ok (eck, pos₂) =>
    match cascadeEncryptB P (zipKeysB layers contentLayerKeys) data R pos₂ with
    | .error e => .error e
    | .ok (ct, pos₃) => .ok (⟨eck, ct⟩, pos₃)

/-- Model of variant B's `decrypt` (part_000 lines 260-280). -/
def decryptB (P : Prims) (layers : List AlgB) (ed : EncryptedDataB)
    (mk : MasterKeyB) : Except CErr Bytes :=
  match cascadeDecryptB P (zipKeysB layers mk.layerKeys) ed.encryptedContentKey with
  | .error e => .error e
  | .ok rawContent =>
    cascadeDecryptB P
      (zipKeysB layers (deriveLayerKeysB P rawContent layers "content"))
      ed.ciphertext

-- ---------------------------------------------------------------------------
-- Variant A password hashing (argon2 in src/src/hkdf.ts bundle, lines 98-136)
-- ---------------------------------------------------------------------------

/-- Parameters of `derivePasswordKey` / `argon2` (variant A).  A
`string` password reaches libsodium as its UTF-8 bytes, so passwords are
modelled as bytes. -/
structure PasswordKeyParamsA where
  password : Bytes
  salt : Option Bytes
  opsLimit : Nat
  memLimit : Nat
  deriving DecidableEq, Repr

/-- Salt validation branch of `argon2`: a provided salt must be exactly
`ARGON2_SALT_LENGTH = 16` bytes; an omitted salt is generated later. -/
def argon2SaltBad : Option Bytes → Bool
  | some s => s.length ≠ 16
  | none => false

/-- Model of `argon2`: validate the provided salt length, the opsLimit
floor (`ARGON2_OPSLIMIT_MIN = 1`) and the memLimit floor
(`ARGON2_MEMLIMIT_MIN = 8192`), in source order and before any hashing
or randomness; then take the provided salt or a fresh random 16-byte
one and run Argon2id.  Returns (key, salt, new tape position). -/
def argon2 (P : Prims) (params : PasswordKeyParamsA) (R : Tape) (pos : Nat) :
    Except CErr (Bytes × Bytes × Nat) :=
  if argon2SaltBad params.salt then
    .error (.invalidParameter "Argon2: salt must be exactly 16 bytes")
  else if params.opsLimit < 1 then
    .error (.invalidParameter "Argon2: opsLimit must be at least 1")
  else if params.memLimit < 8192 then
    .error (.invalidParameter "Argon2: memLimit must be at least 8192")
  else
    let (salt, pos') :=
      match params.salt with
      | some s => (s, pos)
      | none => randomBytes R pos 16
    .ok (P.pwhash params.password salt params.opsLimit params.memLimit, salt, pos')

-- ---------------------------------------------------------------------------
-- Variant A key hierarchy (src/src/cascade.ts)
-- ---------------------------------------------------------------------------

/-- KDF context for password-derived layer keys (part_006). -/
def KDF_CONTEXT_PASSWORD : String := "cascpwdk"

/-- KDF context for master key layer keys (part_006). -/
def KDF_CONTEXT_MASTER : String := "cascmstk"

/-- KDF context for content key layer keys (part_006). -/
def KDF_CONTEXT_CONTENT : String := "cascctnt"

/-- One derived cascade layer key (`LayerKeys` in part_009). -/
structure LayerKeyA where
  algorithm : AlgA
  key : Bytes
  deriving DecidableEq, Repr

/-- Loop body of `deriveLayerKeys`: derive the key of every remaining
layer, `i` being the index of the head layer in the original list. -/
def deriveLayerKeysGo (P : Prims) (rawMaterial : Bytes) (context : String) :
    Nat → List AlgA → Except CErr (List LayerKeyA)
  | _, [] => .ok []
  | i, a :: rest =>
    match P.kdf rawMaterial context i (keyLengthA a) with
    | none => .error .kdfFailure
    | some k =>
      match deriveLayerKeysGo P rawMaterial context (i + 1) rest with
      | .error e => .error e
      | .ok ks => .ok (⟨a, k⟩ :: ks)

/-- Model of `deriveLayerKeys` (src/src/cascade.ts lines 94-106): for
each layer index `i`, derive `kdf(rawMaterial, context, i, keyLength)`. -/
def deriveLayerKeys (P : Prims) (rawMaterial : Bytes) (layers : List AlgA)
    (context : String) : Except CErr (List LayerKeyA) :=
  deriveLayerKeysGo P rawMaterial context 0 layers

/-- A password-derived key (`PasswordKey` in part_009). -/
structure PasswordKeyA where
  salt : Bytes
  opsLimit : Nat
  memLimit : Nat
  layerKeys : List LayerKeyA
  deriving DecidableEq, Repr

/-- A master key (`MasterKey` in part_009). -/
structure MasterKeyA where
  layerKeys : List LayerKeyA
  deriving DecidableEq, Repr

/-- An encrypted data bundle (`EncryptedData` in part_009). -/
structure EncryptedDataA where
  encryptedContentKey : Bytes
  ciphertext : Bytes
  deriving DecidableEq, Repr

/-- Zip a layer list with the raw keys of its layer-key records, as the
cascade loops do via parallel indexing. -/
def zipKeys (layers : List AlgA) (lks : List LayerKeyA) : List (AlgA × Bytes) :=
  layers.zip (lks.map LayerKeyA.key)

/-- Final contents of `derivePasswordKey`'s sensitive local buffer:
the Argon2id output `key` (none = `argon2` failed, so the buffer never
existed). -/
structure DpkLocals where
  base : Option Bytes
  deriving DecidableEq, Repr

/-- Model of `derivePasswordKey` (src/src/cascade.ts lines 173-195):
run `argon2`, then derive the per-layer password subkeys; the
`try/finally` wipes the Argon2id output on success and on failure of the
derivation step.  The second component records the final contents of
that buffer. -/
def derivePasswordKey (P : Prims) (layers : List AlgA)
    (params : PasswordKeyParamsA) (R : Tape) (pos : Nat) :
    Except CErr (PasswordKeyA × Nat) × DpkLocals :=
  match argon2 P params R pos with
  | .error e => (.error e, ⟨none⟩)
  | .ok (key, salt, pos') =>
    match deriveLayerKeys P key layers KDF_CONTEXT_PASSWORD with
    | .error e => (.error e, ⟨some (secureWipe key)⟩)
    | .ok lks =>
      (.ok ({ salt := salt, opsLimit := params.opsLimit,
              memLimit := params.memLimit, layerKeys := lks }, pos'),
       ⟨some (secureWipe key)⟩)

/-- Model of `generateMasterKey` (src/src/cascade.ts lines 201-231):
draw 32 random bytes of raw master material, derive the master layer
subkeys, seal the raw material through the password-key cascade, and
return the bundle (the `finally` wipes `rawMaster`). -/
def generateMasterKey (P : Prims) (layers : List AlgA) (pk : PasswordKeyA)
    (R : Tape) (pos : Nat) : Except CErr (MasterKeyA × Bytes × Nat) :=
  let (rawMaster, pos₁) := randomBytes R pos 32
  match deriveLayerKeys P rawMaster layers KDF_CONTEXT_MASTER with
  | .error e => .error e
  | .ok mlks =>
    match cascadeEncryptA P (zipKeys layers pk.layerKeys) rawMaster R pos₁ with
    | .error e => .error e
    | .ok (emk, pos₂) => .ok (⟨mlks⟩, emk, pos₂)

/-- Model of `unlockMasterKey` (src/src/cascade.ts lines 237-260): open
the encrypted master key through the password-key cascade (any layer
failure propagates unchanged), then re-derive the master layer subkeys
(the `finally` wipes `rawMaster`). -/
def unlockMasterKey (P : Prims) (layers : List AlgA) (emk : Bytes)
    (pk : PasswordKeyA) : Except CErr MasterKeyA :=
  match cascadeDecryptA P (zipKeys layers pk.layerKeys) emk with
  | .error e => .error e
  | .ok rawMaster =>
    match deriveLayerKeys P rawMaster layers KDF_CONTEXT_MASTER with
    | .error e => .error e
    | .ok mlks => .ok ⟨mlks⟩

/-- Final contents of `encrypt`'s sensitive local buffers: the raw
content material and the derived content layer key buffers. -/
structure EncLocals where
  rawContent : Option Bytes
  contentKeys : Option (List Bytes)
  deriving DecidableEq, Repr

/-- Model of `encrypt` (src/src/cascade.ts lines 266-297): draw 32
random bytes of content material, derive the content layer subkeys,
seal the content material through the master-key cascade and the data
through the content-key cascade.  The `finally` wipes `rawContent`
only; the content layer key buffers are left holding the derived keys.
The second component records the final contents of those buffers. -/
def encryptA (P : Prims) (layers : List AlgA) (data : Bytes)
    (mk : MasterKeyA) (R : Tape) (pos : Nat) :
    Except CErr (EncryptedDataA × Nat) × EncLocals :=
  let (rawContent, pos₁) := randomBytes R pos 32
  match deriveLayerKeys P rawContent layers KDF_CONTEXT_CONTENT with
  | .error e => (.error e, ⟨some (secureWipe rawContent), none⟩)
  | .ok clks =>
    match cascadeEncryptA P (zipKeys layers mk.layerKeys) rawContent R pos₁ with
    | .error e =>
      (.error e, ⟨some (secureWipe rawContent), some (clks.map LayerKeyA.key)⟩)
    | .ok (eck, pos₂) =>
      match cascadeEncryptA P (zipKeys layers clks) data R pos₂ with
      | .error e =>
        (.error e, ⟨some (secureWipe rawContent), some (clks.map LayerKeyA.key)⟩)
      | .ok (ct, pos₃) =>
        (.ok (⟨eck, ct⟩, pos₃),
         ⟨some (secureWipe rawContent), some (clks.map LayerKeyA.key)⟩)

/-- Final contents of `decrypt`'s sensitive local buffers. -/
structure DecLocals where
  rawContent : Option Bytes
  contentKeys : Option (List Bytes)
  deriving DecidableEq, Repr

/-- Model of `decrypt` (src/src/cascade.ts lines 303-331): open the
wrapped content key through the master-key cascade (failure propagates
unchanged), re-derive the content layer subkeys, and open the
ciphertext through the content-key cascade.  The `finally` wipes
`rawContent` only; the content layer key buffers are not wiped. -/
def decryptA (P : Prims) (layers : List AlgA) (ed : EncryptedDataA)
    (mk : MasterKeyA) : Except CErr Bytes × DecLocals :=
  match cascadeDecryptA P (zipKeys layers mk.layerKeys) ed.encryptedContentKey with
  | .error e => (.error e, ⟨none, none⟩)
  | .ok rawContent =>
    match deriveLayerKeys P rawContent layers KDF_CONTEXT_CONTENT with
    | .error e => (.error e, ⟨some (secureWipe rawContent), none⟩)
    | .ok clks =>
      (cascadeDecryptA P (zipKeys layers clks) ed.ciphertext,
       ⟨some (secureWipe rawContent), some (clks.map LayerKeyA.key)⟩)

/-- Model of `changePassword` (src/src/cascade.ts lines 337-359): open
the encrypted master key with the old password key, re-seal the raw
master material with the new password key (the `finally` wipes
`rawMaster`).  No `EncryptedData` is read or written. -/
def changePassword (P : Prims) (layers : List AlgA) (emk : Bytes)
    (oldPk newPk : PasswordKeyA) (R : Tape) (pos : Nat) :
    Except CErr (Bytes × Nat) :=
  match cascadeDecryptA P (zipKeys layers oldPk.layerKeys) emk with
  | .error e => .error e
  | .ok rawMaster =>
    cascadeEncryptA P (zipKeys layers newPk.layerKeys) rawMaster R pos

/-- Model of `wipePasswordKey` (src/src/cascade.ts lines 365-369):
`secureWipe` every layer key buffer in place; nothing else is touched. -/
def wipePasswordKey (pk : PasswordKeyA) : PasswordKeyA :=
  { pk with layerKeys := pk.layerKeys.map fun lk => { lk with key := secureWipe lk.key } }

/-- Model of `wipeMasterKey` (src/src/cascade.ts lines 371-375). -/
def wipeMasterKey (mk : MasterKeyA) : MasterKeyA :=
  { mk with layerKeys := mk.layerKeys.map fun lk => { lk with key := secureWipe lk.key } }

-- ---------------------------------------------------------------------------
-- Basic lemmas
-- ---------------------------------------------------------------------------

theorem randomBytes_fst_length (R : Tape) (pos n : Nat) :
    (randomBytes R pos n).1.length = n := by
  simp [randomBytes]

/-- Deterministic ciphertext expansion of a variant-A suite:
12 + 16 bytes for AES-256-GCM, 24 + 16 for XChaCha20-Poly1305. -/
def overheadA : AlgA → Nat
  | .gcm => 28
  | .xch => 40

/-- Deterministic ciphertext expansion of a variant-B suite:
12 + 16 bytes for AES-256-GCM, 16 + 32 for AES-256-CTR-HMAC. -/
def overheadB : AlgB → Nat
  | .gcm => 28
  | .ctrHmac => 48

theorem suiteEncryptA_roundtrip (P : Prims) (hP : PrimsOk P) (a : AlgA)
    (data key : Bytes) (R : Tape) (pos : Nat) (hk : key.length = 32) :
    ∃ c pos', suiteEncryptA P a data key R pos = .ok (c, pos') ∧
      suiteDecryptA P a c key = .ok data := by
  cases a with
  | gcm =>
    refine ⟨(randomBytes R pos 12).1 ++ P.aesGcmEnc key (randomBytes R pos 12).1 data,
      (randomBytes R pos 12).2, ?_, ?_⟩
    · simp [suiteEncryptA, aesGcmEncrypt, hk]
    · have hiv : (randomBytes R pos 12).1.length = 12 := randomBytes_fst_length R pos 12
      have hlen : ((randomBytes R pos 12).1 ++ P.aesGcmEnc key (randomBytes R pos 12).1 data).length
          = data.length + 28 := by
        simp [hiv, hP.gcm_len]; omega
      have htake : ((randomBytes R pos 12).1 ++ P.aesGcmEnc key (randomBytes R pos 12).1 data).take 12
          = (randomBytes R pos 12).1 := by
        rw [← hiv]; exact List.take_left _ _
      have hdrop : ((randomBytes R pos 12).1 ++ P.aesGcmEnc key (randomBytes R pos 12).1 data).drop 12
          = P.aesGcmEnc key (randomBytes R pos 12).1 data := by
        rw [← hiv]; exact List.drop_left _ _
      simp [suiteDecryptA, aesGcmDecrypt, hk, hlen, htake, hdrop, hP.gcm_dec]
  | xch =>
    refine ⟨(randomBytes R pos 24).1 ++ P.xchachaEnc key (randomBytes R pos 24).1 data,
      (randomBytes R pos 24).2, ?_, ?_⟩
    · simp [suiteEncryptA, xchachaEncrypt, hk]
    · have hn : (randomBytes R pos 24).1.length = 24 := randomBytes_fst_length R pos 24
      have hlen : ((randomBytes R pos 24).1 ++ P.xchachaEnc key (randomBytes R pos 24).1 data).length
          = data.length + 40 := by
        simp [hn, hP.xch_len]; omega
      have htake : ((randomBytes R pos 24).1 ++ P.xchachaEnc key (randomBytes R pos 24).1 data).take 24
          = (randomBytes R pos 24).1 := by
        rw [← hn]; exact List.take_left _ _
      have hdrop : ((randomBytes R pos 24).1 ++ P.xchachaEnc key (randomBytes R pos 24).1 data).drop 24
          = P.xchachaEnc key (randomBytes R pos 24).1 data := by
        rw [← hn]; exact List.drop_left _ _
      simp [suiteDecryptA, xchachaDecrypt, hk, hlen, htake, hdrop, hP.xch_dec]

theorem suiteEncryptA_length (P : Prims) (hP : PrimsOk P) (a : AlgA)
    (data key : Bytes) (R : Tape) (pos : Nat) (c : Bytes) (pos' : Nat)
    (h : suiteEncryptA P a data key R pos = .ok (c, pos')) :
    c.length = data.length + overheadA a := by
  cases a with
  | gcm =>
    by_cases hk : key.length = 32
    · simp [suiteEncryptA, aesGcmEncrypt, hk] at h
      obtain ⟨h1, _⟩ := h
      subst h1
      simp [randomBytes_fst_length, hP.gcm_len, overheadA]
      omega
    · simp [suiteEncryptA, aesGcmEncrypt, hk] at h
  | xch =>
    by_cases hk : key.length = 32
    · simp [suiteEncryptA, xchachaEncrypt, hk] at h
      obtain ⟨h1, _⟩ := h
      subst h1
      simp [randomBytes_fst_length, hP.xch_len, overheadA]
      omega
    · simp [suiteEncryptA, xchachaEncrypt, hk] at h

theorem cascadeEncryptA_ok_roundtrip (P : Prims) (hP : PrimsOk P) :
    ∀ (zs : List (AlgA × Bytes)), (∀ p ∈ zs, (p.2 : Bytes).length = 32) →
    ∀ (data : Bytes) (R : Tape) (pos : Nat),
      ∃ c pos', cascadeEncryptA P zs data R pos = .ok (c, pos') ∧
        cascadeDecryptA P zs c = .ok data
  | [], _, data, R, pos => ⟨data, pos, rfl, rfl⟩
  | (a, key) :: rest, hz, data, R, pos => by
    have hk : key.length = 32 := hz (a, key) (List.mem_cons_self _ _)
    obtain ⟨c₁, p₁, henc₁, hdec₁⟩ := suiteEncryptA_roundtrip P hP a data key R pos hk
    obtain ⟨c, pos', henc, hdec⟩ :=
      cascadeEncryptA_ok_roundtrip P hP rest
        (fun p hp => hz p (List.mem_cons_of_mem _ hp)) c₁ R p₁
    exact ⟨c, pos', by simp [cascadeEncryptA, henc₁, henc],
      by simp [cascadeDecryptA, hdec, hdec₁]⟩

theorem cascadeEncryptA_length (P : Prims) (hP : PrimsOk P) :
    ∀ (zs : List (AlgA × Bytes)) (data : Bytes) (R : Tape) (pos : Nat)
      (c : Bytes) (pos' : Nat),
      cascadeEncryptA P zs data R pos = .ok (c, pos') →
      c.length = data.length + (zs.map fun p => overheadA p.1).sum
  | [], data, R, pos, c, pos', h => by
    simp [cascadeEncryptA] at h
    simp [h.1.symm]
  | (a, key) :: rest, data, R, pos, c, pos', h => by
    simp only [cascadeEncryptA] at h
    cases henc : suiteEncryptA P a data key R pos with
    | error e => rw [henc] at h; exact absurd h (by simp)
    | ok v =>
      rw [henc] at h
      obtain ⟨c₁, p₁⟩ := v
      have h₁ := suiteEncryptA_length P hP a data key R pos c₁ p₁ henc
      have h₂ := cascadeEncryptA_length P hP rest c₁ R p₁ c pos' h
      simp [h₂, h₁]
      omega

theorem suiteEncryptB_length (P : Prims) (hP : PrimsOk P) (a : AlgB)
    (data key : Bytes) (R : Tape) (pos : Nat) (c : Bytes) (pos' : Nat)
    (h : suiteEncryptB P a data key R pos = .ok (c, pos')) :
    c.length = data.length + overheadB a := by
  cases a with
  | gcm =>
    by_cases hk : key.length = 32
    · simp [suiteEncryptB, aesGcmEncrypt, hk] at h
      obtain ⟨h1, _⟩ := h
      subst h1
      simp [randomBytes_fst_length, hP.gcm_len, overheadB]
      omega
    · simp [suiteEncryptB, aesGcmEncrypt, hk] at h
  | ctrHmac =>
    simp [suiteEncryptB, aesCtrHmacEncrypt] at h
    obtain ⟨h1, _⟩ := h
    subst h1
    simp [randomBytes_fst_length, hP.ctr_len, hP.hmac_len, overheadB]
    omega

theorem cascadeEncryptB_length (P : Prims) (hP : PrimsOk P) :
    ∀ (zs : List (AlgB × Bytes)) (data : Bytes) (R : Tape) (pos : Nat)
      (c : Bytes) (pos' : Nat),
      cascadeEncryptB P zs data R pos = .ok (c, pos') →
      c.length = data.length + (zs.map fun p => overheadB p.1).sum
  | [], data, R, pos, c, pos', h => by
    simp [cascadeEncryptB] at h
    simp [h.1.symm]
  | (a, key) :: rest, data, R, pos, c, pos', h => by
    simp only [cascadeEncryptB] at h
    cases henc : suiteEncryptB P a data key R pos with
    | error e => rw [henc] at h; exact absurd h (by simp)
    | ok v =>
      rw [henc] at h
      obtain ⟨c₁, p₁⟩ := v
      have h₁ := suiteEncryptB_length P hP a data key R pos c₁ p₁ henc
      have h₂ := cascadeEncryptB_length P hP rest c₁ R p₁ c pos' h
      simp [h₂, h₁]
      omega

theorem constantTimeEqual_foldl_self (a : Bytes) :
    ∀ r : Nat, (a.zip a).foldl (fun r p => r ||| (p.1 ^^^ p.2)) r = r := by
  induction a with
  | nil => intro r; rfl
  | cons x xs ih =>
    intro r
    simp only [List.zip_cons_cons, List.foldl_cons]
    rw [Nat.xor_self, Nat.or_zero]
    exact ih r

theorem constantTimeEqual_self (a : Bytes) : constantTimeEqual a a = true := by
  simp [constantTimeEqual, constantTimeEqual_foldl_self]

theorem aesCtrHmacDecrypt_frame (P : Prims) (key counter ct mac data : Bytes)
    (hcl : counter.length = 16) (hctlen : ct.length = data.length)
    (hmaclen : mac.length = 32)
    (hmac : P.hmacSha256 (key.drop 32) (counter ++ ct) = mac)
    (hinv : P.aesCtr (key.take 32) counter ct = data) :
    aesCtrHmacDecrypt P (counter ++ ct ++ mac) key = .ok data := by
  have hblob : (counter ++ ct ++ mac).length = data.length + 48 := by
    simp [hcl, hctlen, hmaclen]
    omega
  have htake : (counter ++ ct ++ mac).take 16 = counter := by
    rw [List.append_assoc, ← hcl]
    exact List.take_left _ _
  have hdrop16 : (counter ++ ct ++ mac).drop 16 = ct ++ mac := by
    rw [List.append_assoc, ← hcl]
    exact List.drop_left _ _
  have hcipher : ((counter ++ ct ++ mac).drop 16).take
      ((counter ++ ct ++ mac).length - 48) = ct := by
    rw [hdrop16, hblob]
    have h48 : data.length + 48 - 48 = ct.length := by omega
    rw [h48]
    exact List.take_left _ _
  have hrecmac : (counter ++ ct ++ mac).drop ((counter ++ ct ++ mac).length - 32)
      = mac := by
    rw [hblob]
    have h32 : data.length + 48 - 32 = (counter ++ ct).length := by
      simp [hcl, hctlen]
      omega
    rw [h32]
    exact List.drop_left _ _
  simp only [aesCtrHmacDecrypt]
  rw [if_neg (by rw [hblob]; omega), htake, hcipher, hrecmac, hmac,
    if_pos (constantTimeEqual_self mac), hinv]

theorem suiteEncryptB_roundtrip (P : Prims) (hP : PrimsOk P) (a : AlgB)
    (data key : Bytes) (R : Tape) (pos : Nat)
    (hk : key.length = keyMaterialLengthB a) :
    ∃ c pos', suiteEncryptB P a data key R pos = .ok (c, pos') ∧
      suiteDecryptB P a c key = .ok data := by
  cases a with
  | gcm =>
    have hk32 : key.length = 32 := hk
    refine ⟨(randomBytes R pos 12).1 ++ P.aesGcmEnc key (randomBytes R pos 12).1 data,
      (randomBytes R pos 12).2, ?_, ?_⟩
    · simp [suiteEncryptB, aesGcmEncrypt, hk32]
    · have hiv : (randomBytes R pos 12).1.length = 12 := randomBytes_fst_length R pos 12
      have hlen : ((randomBytes R pos 12).1 ++ P.aesGcmEnc key (randomBytes R pos 12).1 data).length
          = data.length + 28 := by
        simp [hiv, hP.gcm_len]
        omega
      have htake : ((randomBytes R pos 12).1 ++ P.aesGcmEnc key (randomBytes R pos 12).1 data).take 12
          = (randomBytes R pos 12).1 := by
        rw [← hiv]
        exact List.take_left _ _
      have hdrop : ((randomBytes R pos 12).1 ++ P.aesGcmEnc key (randomBytes R pos 12).1 data).drop 12
          = P.aesGcmEnc key (randomBytes R pos 12).1 data := by
        rw [← hiv]
        exact List.drop_left _ _
      simp [suiteDecryptB, aesGcmDecrypt, hk32, hlen, htake, hdrop, hP.gcm_dec]
  | ctrHmac =>
    refine ⟨(randomBytes R pos 16).1
        ++ P.aesCtr (key.take 32) (randomBytes R pos 16).1 data
        ++ P.hmacSha256 (key.drop 32) ((randomBytes R pos 16).1
          ++ P.aesCtr (key.take 32) (randomBytes R pos 16).1 data),
      (randomBytes R pos 16).2, ?_, ?_⟩
    · simp [suiteEncryptB, aesCtrHmacEncrypt]
    · exact aesCtrHmacDecrypt_frame P key (randomBytes R pos 16).1
        (P.aesCtr (key.take 32) (randomBytes R pos 16).1 data)
        (P.hmacSha256 (key.drop 32) ((randomBytes R pos 16).1
          ++ P.aesCtr (key.take 32) (randomBytes R pos 16).1 data))
        data (randomBytes_fst_length R pos 16) (hP.ctr_len _ _ _)
        (hP.hmac_len _ _) rfl (hP.ctr_inv _ _ _)

theorem cascadeEncryptB_ok_roundtrip (P : Prims) (hP : PrimsOk P) :
    ∀ (zs : List (AlgB × Bytes)),
      (∀ p ∈ zs, (p.2 : Bytes).length = keyMaterialLengthB p.1) →
    ∀ (data : Bytes) (R : Tape) (pos : Nat),
      ∃ c pos', cascadeEncryptB P zs data R pos = .ok (c, pos') ∧
        cascadeDecryptB P zs c = .ok data
  | [], _, data, R, pos => ⟨data, pos, rfl, rfl⟩
  | (a, key) :: rest, hz, data, R, pos => by
    have hk : key.length = keyMaterialLengthB a := hz (a, key) (List.mem_cons_self _ _)
    obtain ⟨c₁, p₁, henc₁, hdec₁⟩ := suiteEncryptB_roundtrip P hP a data key R pos hk
    obtain ⟨c, pos', henc, hdec⟩ :=
      cascadeEncryptB_ok_roundtrip P hP rest
        (fun p hp => hz p (List.mem_cons_of_mem _ hp)) c₁ R p₁
    exact ⟨c, pos', by simp [cascadeEncryptB, henc₁, henc],
      by simp [cascadeDecryptB, hdec, hdec₁]⟩

theorem zipKeysB_valid (P : Prims) (hH : HkdfLen P) (raw : Bytes)
    (purpose : String) :
    ∀ (i : Nat) (layers : List AlgB),
      ∀ p ∈ zipKeysB layers (deriveLayerKeysBGo P raw purpose i layers),
        (p.2 : Bytes).length = keyMaterialLengthB p.1
  | i, [] => by
    intro p hp
    simp [zipKeysB, deriveLayerKeysBGo] at hp
  | i, a :: rest => by
    intro p hp
    simp only [zipKeysB, deriveLayerKeysBGo, List.map_cons, List.zip_cons_cons] at hp
    rcases List.mem_cons.mp hp with h | h
    · subst h
      exact hH raw _ _
    · exact zipKeysB_valid P hH raw purpose (i + 1) rest p
        (by simpa [zipKeysB] using h)

theorem deriveLayerKeysGo_ok (P : Prims) (hK : KdfTotal P) (raw : Bytes)
    (ctx : String) :
    ∀ (i : Nat) (ls : List AlgA), ∃ ks, deriveLayerKeysGo P raw ctx i ls = .ok ks
  | _, [] => ⟨[], rfl⟩
  | i, a :: rest => by
    obtain ⟨ks, hks⟩ := deriveLayerKeysGo_ok P hK raw ctx (i + 1) rest
    have h := hK raw ctx i (keyLengthA a)
    cases hkdf : P.kdf raw ctx i (keyLengthA a) with
    | none => rw [hkdf] at h; simp at h
    | some k => exact ⟨⟨a, k⟩ :: ks, by simp [deriveLayerKeysGo, hkdf, hks]⟩

theorem deriveLayerKeysGo_length (P : Prims) (raw : Bytes) (ctx : String) :
    ∀ (i : Nat) (ls : List AlgA) (ks : List LayerKeyA),
      deriveLayerKeysGo P raw ctx i ls = .ok ks → ks.length = ls.length
  | _, [], ks, h => by simp [deriveLayerKeysGo] at h; simp [h.symm]
  | i, a :: rest, ks, h => by
    simp only [deriveLayerKeysGo] at h
    cases hkdf : P.kdf raw ctx i (keyLengthA a) with
    | none => rw [hkdf] at h; exact absurd h (by simp)
    | some k =>
      rw [hkdf] at h
      cases hrest : deriveLayerKeysGo P raw ctx (i + 1) rest with
      | error e => rw [hrest] at h; exact absurd h (by simp)
      | ok ks' =>
        rw [hrest] at h
        simp at h
        have := deriveLayerKeysGo_length P raw ctx (i + 1) rest ks' hrest
        simp [h.symm, this]

theorem deriveLayerKeysGo_get (P : Prims) (raw : Bytes) (ctx : String) :
    ∀ (i : Nat) (ls : List AlgA) (ks : List LayerKeyA),
      deriveLayerKeysGo P raw ctx i ls = .ok ks →
      ∀ (j : Nat) (a : AlgA), ls[j]? = some a →
        ∃ k, P.kdf raw ctx (i + j) (keyLengthA a) = some k ∧
          ks[j]? = some ⟨a, k⟩
  | _, [], ks, h, j, a, hj => by simp at hj
  | i, b :: rest, ks, h, j, a, hj => by
    simp only [deriveLayerKeysGo] at h
    cases hkdf : P.kdf raw ctx i (keyLengthA b) with
    | none => rw [hkdf] at h; exact absurd h (by simp)
    | some k =>
      rw [hkdf] at h
      cases hrest : deriveLayerKeysGo P raw ctx (i + 1) rest with
      | error e => rw [hrest] at h; exact absurd h (by simp)
      | ok ks' =>
        rw [hrest] at h
        simp at h
        subst h
        cases j with
        | zero =>
          simp at hj
          subst hj
          exact ⟨k, by simpa using hkdf, by simp⟩
        | succ j' =>
          simp at hj
          obtain ⟨k', hk', hks'⟩ :=
            deriveLayerKeysGo_get P raw ctx (i + 1) rest ks' hrest j' a hj
          refine ⟨k', ?_, by simpa using hks'⟩
          have harith : i + (j' + 1) = i + 1 + j' := by omega
          rw [harith]
          exact hk'

theorem deriveLayerKeysGo_keyLength (P : Prims) (hP : PrimsOk P) (raw : Bytes)
    (ctx : String) :
    ∀ (i : Nat) (ls : List AlgA) (ks : List LayerKeyA),
      deriveLayerKeysGo P raw ctx i ls = .ok ks →
      ∀ lk ∈ ks, lk.key.length = 32
  | _, [], ks, h, lk, hlk => by
    simp [deriveLayerKeysGo] at h
    subst h
    simp at hlk
  | i, b :: rest, ks, h, lk, hlk => by
    simp only [deriveLayerKeysGo] at h
    cases hkdf : P.kdf raw ctx i (keyLengthA b) with
    | none => rw [hkdf] at h; exact absurd h (by simp)
    | some k =>
      rw [hkdf] at h
      cases hrest : deriveLayerKeysGo P raw ctx (i + 1) rest with
      | error e => rw [hrest] at h; exact absurd h (by simp)
      | ok ks' =>
        rw [hrest] at h
        simp at h
        subst h
        rcases List.mem_cons.mp hlk with hhd | htl
        · subst hhd
          have := hP.kdf_len raw ctx i (keyLengthA b) k hkdf
          cases b <;> simpa [keyLengthA] using this
        · exact deriveLayerKeysGo_keyLength P hP raw ctx (i + 1) rest ks' hrest lk htl

theorem deriveLayerKeys_ok (P : Prims) (hK : KdfTotal P) (raw : Bytes)
    (layers : List AlgA) (ctx : String) :
    ∃ ks, deriveLayerKeys P raw layers ctx = .ok ks :=
  deriveLayerKeysGo_ok P hK raw ctx 0 layers

theorem zipKeys_valid (P : Prims) (hP : PrimsOk P) (raw : Bytes)
    (layers : List AlgA) (ctx : String) (ks : List LayerKeyA)
    (h : deriveLayerKeys P raw layers ctx = .ok ks) :
    ∀ p ∈ zipKeys layers ks, (p.2 : Bytes).length = 32 := by
  intro p hp
  have h2 : p.2 ∈ ks.map LayerKeyA.key := (List.of_mem_zip hp).2
  obtain ⟨lk, hlk, hkey⟩ := List.mem_map.mp h2
  rw [← hkey]
  exact deriveLayerKeysGo_keyLength P hP raw ctx 0 layers ks h lk hlk

-- ---------------------------------------------------------------------------
-- Claim C1: full-hierarchy encrypt/decrypt round trip
-- ---------------------------------------------------------------------------

/-- C1: for every plaintext and every valid layer configuration of either
variant, with the master key obtained from
`generateMasterKey(derivePasswordKey(pw, params))` (or equivalently from
`unlockMasterKey` of the companion encrypted master key blob, which
yields the same master key), `decrypt(encrypt(P, mk), mk)` returns
exactly `P`: the cascade seals in layer order 0..L-1 and opens in
reverse order L-1..0, so the composition is the identity.  The first
conjunct covers the libsodium variant (src/src/cascade.ts), the second
the WebCrypto variant (part_000 lines 156-280), each through its own
full password → master → content hierarchy. -/
theorem c1_cascade_roundtrip (P : Prims) (hP : PrimsOk P) (hK : KdfTotal P)
    (hH : HkdfLen P)
    (layers : List AlgA) (params : PasswordKeyParamsA) (R : Tape) (pos₀ : Nat)
    (hsalt : argon2SaltBad params.salt = false) (hops : 1 ≤ params.opsLimit)
    (hmem : 8192 ≤ params.memLimit)
    (layersB : List AlgB) (paramsB : PasswordKeyParamsB) (RB : Tape) (posB : Nat) :
    (∃ pk pos₁, (derivePasswordKey P layers params R pos₀).1 = .ok (pk, pos₁) ∧
      ∀ posG : Nat, ∃ mk emk pos₂,
        generateMasterKey P layers pk R posG = .ok (mk, emk, pos₂) ∧
        unlockMasterKey P layers emk pk = .ok mk ∧
        ∀ (data : Bytes) (posE : Nat), ∃ ed pos₃,
          (encryptA P layers data mk R posE).1 = .ok (ed, pos₃) ∧
          (decryptA P layers ed mk).1 = .ok data) ∧
    (∃ pkB posB₁,
      (derivePasswordKeyB P layersB paramsB RB posB).1 = (pkB, posB₁) ∧
      ∀ posG : Nat, ∃ mkB emkB posB₂,
        generateMasterKeyB P layersB pkB RB posG = .ok (mkB, emkB, posB₂) ∧
        unlockMasterKeyB P layersB emkB pkB = .ok mkB ∧
        ∀ (data : Bytes) (posE : Nat), ∃ edB posB₃,
          encryptB P layersB data mkB RB posE = .ok (edB, posB₃) ∧
          decryptB P layersB edB mkB = .ok data) := by
  constructor
  -- variant A (libsodium)
  -- argon2 succeeds on validated parameters
  · obtain ⟨key, salt, pos₁', hargonEq⟩ :
        ∃ k s p, argon2 P params R pos₀ = .ok (k, s, p) := by
      cases hso : params.salt with
      | none =>
        refine ⟨P.pwhash params.password (randomBytes R pos₀ 16).1 params.opsLimit
          params.memLimit, (randomBytes R pos₀ 16).1, (randomBytes R pos₀ 16).2, ?_⟩
        simp [argon2, hso, argon2SaltBad, Nat.not_lt.mpr hops, Nat.not_lt.mpr hmem]
      | some s =>
        have hs : s.length = 16 := by
          have := hsalt
          simp [argon2SaltBad, hso] at this
          exact this
        refine ⟨P.pwhash params.password s params.opsLimit params.memLimit, s, pos₀, ?_⟩
        simp [argon2, hso, argon2SaltBad, hs, Nat.not_lt.mpr hops, Nat.not_lt.mpr hmem]
    -- password layer keys derive successfully
    obtain ⟨lks, hlks⟩ := deriveLayerKeys_ok P hK key layers KDF_CONTEXT_PASSWORD
    refine ⟨{ salt := salt, opsLimit := params.opsLimit,
              memLimit := params.memLimit, layerKeys := lks }, pos₁', ?_, ?_⟩
    · simp [derivePasswordKey, hargonEq, hlks]
    intro posG
    -- master key generation
    obtain ⟨mlks, hmlks⟩ :=
      deriveLayerKeys_ok P hK (randomBytes R posG 32).1 layers KDF_CONTEXT_MASTER
    have hpkValid := zipKeys_valid P hP key layers KDF_CONTEXT_PASSWORD lks hlks
    obtain ⟨emk, pos₂, hemk, hemkDec⟩ :=
      cascadeEncryptA_ok_roundtrip P hP (zipKeys layers lks) hpkValid
        (randomBytes R posG 32).1 R (randomBytes R posG 32).2
    refine ⟨⟨mlks⟩, emk, pos₂, ?_, ?_, ?_⟩
    · simp [generateMasterKey, hmlks, hemk]
    · simp [unlockMasterKey, hemkDec, hmlks]
    intro data posE
    -- content key derivation and the two seals
    obtain ⟨clks, hclks⟩ :=
      deriveLayerKeys_ok P hK (randomBytes R posE 32).1 layers KDF_CONTEXT_CONTENT
    have hmkValid :=
      zipKeys_valid P hP (randomBytes R posG 32).1 layers KDF_CONTEXT_MASTER mlks hmlks
    have hckValid :=
      zipKeys_valid P hP (randomBytes R posE 32).1 layers KDF_CONTEXT_CONTENT clks hclks
    obtain ⟨eck, pos₂', heck, heckDec⟩ :=
      cascadeEncryptA_ok_roundtrip P hP (zipKeys layers mlks) hmkValid
        (randomBytes R posE 32).1 R (randomBytes R posE 32).2
    obtain ⟨ct, pos₃, hct, hctDec⟩ :=
      cascadeEncryptA_ok_roundtrip P hP (zipKeys layers clks) hckValid data R pos₂'
    refine ⟨⟨eck, ct⟩, pos₃, ?_, ?_⟩
    · simp [encryptA, hclks, heck, hct]
    · simp [decryptA, heckDec, hclks, hctDec]
  -- variant B (WebCrypto)
  · refine ⟨(derivePasswordKeyB P layersB paramsB RB posB).1.1,
      (derivePasswordKeyB P layersB paramsB RB posB).1.2, rfl, ?_⟩
    intro posG
    have hpkValid : ∀ p ∈ zipKeysB layersB
        (derivePasswordKeyB P layersB paramsB RB posB).1.1.layerKeys,
        (p.2 : Bytes).length = keyMaterialLengthB p.1 :=
      zipKeysB_valid P hH
        (pbkdf2Derive P paramsB.password paramsB.salt paramsB.iterations RB posB).1
        "password" 0 layersB
    obtain ⟨emkB, posB₂, hemk, hemkDec⟩ :=
      cascadeEncryptB_ok_roundtrip P hP
        (zipKeysB layersB (derivePasswordKeyB P layersB paramsB RB posB).1.1.layerKeys)
        hpkValid (randomBytes RB posG 32).1 RB (randomBytes RB posG 32).2
    refine ⟨⟨deriveLayerKeysB P (randomBytes RB posG 32).1 layersB "master"⟩,
      emkB, posB₂, ?_, ?_, ?_⟩
    · simp [generateMasterKeyB, hemk]
    · simp [unlockMasterKeyB, hemkDec]
    intro data posE
    have hmkValid : ∀ p ∈ zipKeysB layersB
        (deriveLayerKeysB P (randomBytes RB posG 32).1 layersB "master"),
        (p.2 : Bytes).length = keyMaterialLengthB p.1 :=
      zipKeysB_valid P hH (randomBytes RB posG 32).1 "master" 0 layersB
    have hckValid : ∀ p ∈ zipKeysB layersB
        (deriveLayerKeysB P (randomBytes RB posE 32).1 layersB "content"),
        (p.2 : Bytes).length = keyMaterialLengthB p.1 :=
      zipKeysB_valid P hH (randomBytes RB posE 32).1 "content" 0 layersB
    obtain ⟨eckB, posE₂, heck, heckDec⟩ :=
      cascadeEncryptB_ok_roundtrip P hP
        (zipKeysB layersB (deriveLayerKeysB P (randomBytes RB posG 32).1 layersB "master"))
        hmkValid (randomBytes RB posE 32).1 RB (randomBytes RB posE 32).2
    obtain ⟨ctB, posE₃, hct, hctDec⟩ :=
      cascadeEncryptB_ok_roundtrip P hP
        (zipKeysB layersB (deriveLayerKeysB P (randomBytes RB posE 32).1 layersB "content"))
        hckValid data RB posE₂
    refine ⟨⟨eckB, ctB⟩, posE₃, ?_, ?_⟩
    · simp [encryptB, heck, hct]
    · simp [decryptB, heckDec, hctDec]

-- ---------------------------------------------------------------------------
-- Toy primitive instance used by the witnesses and counterexamples
-- ---------------------------------------------------------------------------

/-- Authentication tag of the toy AES-GCM core. -/
def tagGcm : Bytes := List.replicate 16 7

/-- Authentication tag of the toy XChaCha20-Poly1305 core. -/
def tagXch : Bytes := List.replicate 16 9

/-- Toy AEAD core: append a recognisable tag. -/
def toyAeadEnc (tag d : Bytes) : Bytes := d ++ tag

/-- Toy AEAD core inverse: check and strip the tag, failing otherwise. -/
def toyAeadDec (tag b : Bytes) : Option Bytes :=
  if tag.length ≤ b.length ∧ b.drop (b.length - tag.length) = tag then
    some (b.take (b.length - tag.length))
  else none

theorem toyAeadDec_enc (tag d : Bytes) : toyAeadDec tag (toyAeadEnc tag d) = some d := by
  have hlen : (toyAeadEnc tag d).length = d.length + tag.length := by
    simp [toyAeadEnc]
  have hsub : (toyAeadEnc tag d).length - tag.length = d.length := by omega
  have hdrop : (toyAeadEnc tag d).drop d.length = tag := List.drop_left d tag
  have htake : (toyAeadEnc tag d).take d.length = d := List.take_left d tag
  simp [toyAeadDec, hlen, hsub, hdrop, htake]

/-- A concrete executable instance of the external primitives, used to
evaluate the library on concrete inputs.  The AEAD cores append fixed
16-byte tags; the CTR core XORs every byte with 1; KDF output encodes the
context length and layer index. -/
def toyPrims : Prims where
  aesGcmEnc := fun _ _ d => toyAeadEnc tagGcm d
  aesGcmDec := fun _ _ b => toyAeadDec tagGcm b
  xchachaEnc := fun _ _ d => toyAeadEnc tagXch d
  xchachaDec := fun _ _ b => toyAeadDec tagXch b
  aesCtr := fun _ _ d => d.map fun x => x ^^^ 1
  hmacSha256 := fun _ m => List.replicate 32 (m.length % 256)
  kdf := fun _ c i L => some (List.replicate L ((c.length + i + 1) % 256))
  pwhash := fun _ _ _ _ => List.replicate 32 1
  pbkdf2 := fun pw s it => List.replicate 32 ((pw.length + s.length + it) % 256)
  hkdf := fun _ _ L => List.replicate L 2

theorem toyPrimsOk : PrimsOk toyPrims := by
  refine ⟨?_, ?_, ?_, ?_, ?_, ?_, ?_, ?_, ?_, ?_⟩
  · intro k iv d; simp [toyPrims, toyAeadEnc, tagGcm]
  · intro k iv d; exact toyAeadDec_enc tagGcm d
  · intro k n d; simp [toyPrims, toyAeadEnc, tagXch]
  · intro k n d; exact toyAeadDec_enc tagXch d
  · intro k c d; simp [toyPrims]
  · intro k c d
    simp only [toyPrims, List.map_map]
    have hcomp : ((fun x => x ^^^ 1) ∘ fun x : Nat => x ^^^ 1) = id := by
      funext x
      simp [Function.comp, Nat.xor_cancel_right]
    rw [hcomp, List.map_id]
  · intro k m; simp [toyPrims]
  · intro k c i L out h; simp [toyPrims] at h; simp [← h]
  · intro pw s o m; simp [toyPrims]
  · intro pw s it; simp [toyPrims]

theorem toyKdfTotal : KdfTotal toyPrims := by
  intro k c i L; simp [toyPrims]

theorem toyHkdfLen : HkdfLen toyPrims := by
  intro m info L
  simp [toyPrims]

/-- Witness for C1: the round trip instantiated with the toy primitives
for both variants — a two-layer [AES-256-GCM, XChaCha20-Poly1305]
libsodium cascade with password bytes [1, 2], a 16-byte salt of 3s and
minimum cost parameters, and a two-layer [AES-256-GCM, AES-256-CTR-HMAC]
WebCrypto cascade with a 32-byte salt of 3s and 1000 iterations. -/
theorem c1_cascade_roundtrip_witness :
    PrimsOk toyPrims ∧ KdfTotal toyPrims ∧ HkdfLen toyPrims ∧
    ((∃ pk pos₁, (derivePasswordKey toyPrims [AlgA.gcm, AlgA.xch]
        ⟨[1, 2], some (List.replicate 16 3), 1, 8192⟩ (fun _ => 0) 0).1 = .ok (pk, pos₁) ∧
      ∀ posG : Nat, ∃ mk emk pos₂,
        generateMasterKey toyPrims [AlgA.gcm, AlgA.xch] pk (fun _ => 0) posG
          = .ok (mk, emk, pos₂) ∧
        unlockMasterKey toyPrims [AlgA.gcm, AlgA.xch] emk pk = .ok mk ∧
        ∀ (data : Bytes) (posE : Nat), ∃ ed pos₃,
          (encryptA toyPrims [AlgA.gcm, AlgA.xch] data mk (fun _ => 0) posE).1
            = .ok (ed, pos₃) ∧
          (decryptA toyPrims [AlgA.gcm, AlgA.xch] ed mk).1 = .ok data) ∧
     (∃ pkB posB₁,
      (derivePasswordKeyB toyPrims [AlgB.gcm, AlgB.ctrHmac]
        ⟨[1, 2], 1000, some (List.replicate 32 3)⟩ (fun _ => 0) 0).1 = (pkB, posB₁) ∧
      ∀ posG : Nat, ∃ mkB emkB posB₂,
        generateMasterKeyB toyPrims [AlgB.gcm, AlgB.ctrHmac] pkB (fun _ => 0) posG
          = .ok (mkB, emkB, posB₂) ∧
        unlockMasterKeyB toyPrims [AlgB.gcm, AlgB.ctrHmac] emkB pkB = .ok mkB ∧
        ∀ (data : Bytes) (posE : Nat), ∃ edB posB₃,
          encryptB toyPrims [AlgB.gcm, AlgB.ctrHmac] data mkB (fun _ => 0) posE
            = .ok (edB, posB₃) ∧
          decryptB toyPrims [AlgB.gcm, AlgB.ctrHmac] edB mkB = .ok data)) :=
  ⟨toyPrimsOk, toyKdfTotal, toyHkdfLen,
    c1_cascade_roundtrip toyPrims toyPrimsOk toyKdfTotal toyHkdfLen
      [AlgA.gcm, AlgA.xch] ⟨[1, 2], some (List.replicate 16 3), 1, 8192⟩ (fun _ => 0) 0
      (by decide) (by decide) (by decide)
      [AlgB.gcm, AlgB.ctrHmac] ⟨[1, 2], 1000, some (List.replicate 32 3)⟩
      (fun _ => 0) 0⟩

-- ---------------------------------------------------------------------------
-- Claim C2: wiping behaviour of encrypt/decrypt (corrected)
-- ---------------------------------------------------------------------------

/-- C2 counterexample: the claim says every derived content layer key
buffer has been wiped (zeroed) by the time `encrypt` returns.  On a
concrete single-layer AES-256-GCM run with the toy primitives, `encrypt`
returns successfully while the content layer key buffer still holds the
derived key bytes (32 copies of 9), not zeros: the source's `finally`
wipes only `rawContent`. -/
theorem c2_counterexample :
    (encryptA toyPrims [AlgA.gcm] [5] ⟨[⟨AlgA.gcm, List.replicate 32 1⟩]⟩
        (fun _ => 0) 0).2.contentKeys = some [List.replicate 32 9] ∧
    (List.replicate 32 9 : Bytes) ≠ List.replicate 32 0 ∧
    ∃ r, (encryptA toyPrims [AlgA.gcm] [5] ⟨[⟨AlgA.gcm, List.replicate 32 1⟩]⟩
        (fun _ => 0) 0).1 = .ok r := by
  refine ⟨by decide, by decide, ⟨_, rfl⟩⟩

/-- C2 as amended: by the time `encrypt` returns, the 32-byte raw content
material has been wiped (on every path after its allocation, success or
error), but the derived content layer key buffers are NOT wiped — they
still hold exactly the derived keys; likewise `decrypt` wipes only the
opened raw content material and leaves its derived content layer key
buffers holding the keys. -/
theorem c2_wipes_rawContent_not_contentKeys (P : Prims) (layers : List AlgA)
    (data : Bytes) (mk : MasterKeyA) (R : Tape) (pos : Nat) :
    (encryptA P layers data mk R pos).2.rawContent = some (List.replicate 32 0) ∧
    (∀ clks, deriveLayerKeys P (randomBytes R pos 32).1 layers KDF_CONTEXT_CONTENT
        = .ok clks →
      (encryptA P layers data mk R pos).2.contentKeys = some (clks.map LayerKeyA.key)) ∧
    (∀ (ed : EncryptedDataA) (raw : Bytes),
      cascadeDecryptA P (zipKeys layers mk.layerKeys) ed.encryptedContentKey = .ok raw →
      (decryptA P layers ed mk).2.rawContent = some (List.replicate raw.length 0) ∧
      ∀ clks, deriveLayerKeys P raw layers KDF_CONTEXT_CONTENT = .ok clks →
        (decryptA P layers ed mk).2.contentKeys = some (clks.map LayerKeyA.key)) := by
  have hw : secureWipe (randomBytes R pos 32).1 = List.replicate 32 0 := by
    rw [secureWipe_eq, randomBytes_fst_length]
  refine ⟨?_, ?_, ?_⟩
  · cases hd : deriveLayerKeys P (randomBytes R pos 32).1 layers KDF_CONTEXT_CONTENT with
    | error e => simp [encryptA, hd, hw]
    | ok clks =>
      cases he : cascadeEncryptA P (zipKeys layers mk.layerKeys)
          (randomBytes R pos 32).1 R (randomBytes R pos 32).2 with
      | error e => simp [encryptA, hd, he, hw]
      | ok v =>
        obtain ⟨eck, pos₂⟩ := v
        cases hc : cascadeEncryptA P (zipKeys layers clks) data R pos₂ with
        | error e => simp [encryptA, hd, he, hc, hw]
        | ok w =>
          obtain ⟨ct, pos₃⟩ := w
          simp [encryptA, hd, he, hc, hw]
  · intro clks hd
    cases he : cascadeEncryptA P (zipKeys layers mk.layerKeys)
        (randomBytes R pos 32).1 R (randomBytes R pos 32).2 with
    | error e => simp [encryptA, hd, he]
    | ok v =>
      obtain ⟨eck, pos₂⟩ := v
      cases hc : cascadeEncryptA P (zipKeys layers clks) data R pos₂ with
      | error e => simp [encryptA, hd, he, hc]
      | ok w =>
        obtain ⟨ct, pos₃⟩ := w
        simp [encryptA, hd, he, hc]
  · intro ed raw hopen
    have hwr : secureWipe raw = List.replicate raw.length 0 := secureWipe_eq raw
    cases hd : deriveLayerKeys P raw layers KDF_CONTEXT_CONTENT with
    | error e =>
      refine ⟨by simp [decryptA, hopen, hd, hwr], ?_⟩
      intro clks hd'
      exact Except.noConfusion hd'
    | ok clks =>
      refine ⟨by simp [decryptA, hopen, hd, hwr], ?_⟩
      intro clks' hd'
      injection hd' with h
      subst h
      simp [decryptA, hopen, hd, hwr]

/-- Witness for the amended C2: the concrete single-layer run has its raw
content buffer zeroed while the content layer key buffer still holds the
derived key. -/
theorem c2_wipes_witness :
    (encryptA toyPrims [AlgA.gcm] [5] ⟨[⟨AlgA.gcm, List.replicate 32 1⟩]⟩
        (fun _ => 0) 0).2.rawContent = some (List.replicate 32 0) ∧
    (encryptA toyPrims [AlgA.gcm] [5] ⟨[⟨AlgA.gcm, List.replicate 32 1⟩]⟩
        (fun _ => 0) 0).2.contentKeys = some [List.replicate 32 9] := by
  refine ⟨(c2_wipes_rawContent_not_contentKeys toyPrims [AlgA.gcm] [5]
    ⟨[⟨AlgA.gcm, List.replicate 32 1⟩]⟩ (fun _ => 0) 0).1, ?_⟩
  have h := (c2_wipes_rawContent_not_contentKeys toyPrims [AlgA.gcm] [5]
    ⟨[⟨AlgA.gcm, List.replicate 32 1⟩]⟩ (fun _ => 0) 0).2.1
    [⟨AlgA.gcm, List.replicate 32 9⟩] (by decide)
  simpa using h

-- ---------------------------------------------------------------------------
-- Claim C3: the Argon2id base key is wiped on every exit path
-- ---------------------------------------------------------------------------

theorem argon2_ok_key (P : Prims) (params : PasswordKeyParamsA) (R : Tape)
    (pos : Nat) (key salt : Bytes) (pos' : Nat)
    (h : argon2 P params R pos = .ok (key, salt, pos')) :
    key = P.pwhash params.password salt params.opsLimit params.memLimit := by
  unfold argon2 at h
  split_ifs at h
  cases hso : params.salt with
  | none =>
    rw [hso] at h
    simp [randomBytes] at h
    obtain ⟨h1, h2, h3⟩ := h
    subst h2
    exact h1.symm
  | some s =>
    rw [hso] at h
    simp at h
    obtain ⟨h1, h2, _⟩ := h
    subst h2
    exact h1.symm

/-- C3 counterexample: the claim says the 32-byte password-hash output
is wiped before every call to `derivePasswordKey` finishes.  The
WebCrypto variant's `derivePasswordKey` (part_000 lines 156-164) has no
`secureWipe` and no `try/finally`: on a concrete successful call with
the toy primitives, the PBKDF2 base key buffer still holds the derived
key bytes (32 copies of 9) when the call returns, not zeros. -/
theorem c3_counterexample :
    (derivePasswordKeyB toyPrims [AlgB.gcm]
        ⟨[1], 1000, some (List.replicate 32 2)⟩ (fun _ => 0) 0).2.base
      = List.replicate 32 9 ∧
    (List.replicate 32 9 : Bytes) ≠ List.replicate 32 0 := by
  refine ⟨by decide, by decide⟩

/-- C3 as amended: in the libsodium variant, the 32-byte Argon2id output
(the root key material fed to the per-layer derivation) is wiped before
`derivePasswordKey` finishes, on the success path and on the error path
alike — when step 2 (the per-layer KDF) fails, the `finally` still
zeroes the base key and the error propagates unchanged, and when
`argon2` itself fails, the buffer was never allocated and the validation
error propagates; in the WebCrypto variant, `derivePasswordKey` never
wipes the PBKDF2 base key, whose buffer still holds the derived key when
the call returns. -/
theorem c3_basekey_wipe_per_variant (P : Prims) (hP : PrimsOk P)
    (layers : List AlgA) (params : PasswordKeyParamsA) (R : Tape) (pos : Nat)
    (layersB : List AlgB) (paramsB : PasswordKeyParamsB) (RB : Tape)
    (posB : Nat) :
    (∀ key salt pos', argon2 P params R pos = .ok (key, salt, pos') →
      (derivePasswordKey P layers params R pos).2.base = some (List.replicate 32 0) ∧
      ∀ e, deriveLayerKeys P key layers KDF_CONTEXT_PASSWORD = .error e →
        (derivePasswordKey P layers params R pos).1 = .error e) ∧
    (∀ e, argon2 P params R pos = .error e →
      (derivePasswordKey P layers params R pos).1 = .error e ∧
      (derivePasswordKey P layers params R pos).2.base = none) ∧
    ((derivePasswordKeyB P layersB paramsB RB posB).2.base
      = (pbkdf2Derive P paramsB.password paramsB.salt paramsB.iterations RB posB).1) := by
  refine ⟨?_, ?_, rfl⟩
  · intro key salt pos' h
    have hkey := argon2_ok_key P params R pos key salt pos' h
    have hklen : key.length = 32 := by rw [hkey]; exact hP.pwhash_len _ _ _ _
    have hwipe : secureWipe key = List.replicate 32 0 := by
      rw [secureWipe_eq, hklen]
    constructor
    · cases hd : deriveLayerKeys P key layers KDF_CONTEXT_PASSWORD with
      | error e => simp [derivePasswordKey, h, hd, hwipe]
      | ok lks => simp [derivePasswordKey, h, hd, hwipe]
    · intro e hd
      simp [derivePasswordKey, h, hd]
  · intro e h
    exact ⟨by simp [derivePasswordKey, h], by simp [derivePasswordKey, h]⟩

/-- Toy primitives whose KDF backend always fails, exercising the error
path of step 2 of `derivePasswordKey`. -/
def kdfFailPrims : Prims := { toyPrims with kdf := fun _ _ _ _ => none }

theorem kdfFailPrimsOk : PrimsOk kdfFailPrims :=
  ⟨toyPrimsOk.gcm_len, toyPrimsOk.gcm_dec, toyPrimsOk.xch_len, toyPrimsOk.xch_dec,
   toyPrimsOk.ctr_len, toyPrimsOk.ctr_inv, toyPrimsOk.hmac_len,
   fun _ _ _ _ _ h => Option.noConfusion h,
   toyPrimsOk.pwhash_len, toyPrimsOk.pbkdf2_len⟩

/-- Witness for the amended C3: with a failing KDF backend the libsodium
`derivePasswordKey` still zeroes the Argon2id output and surfaces the
derivation error, while the WebCrypto `derivePasswordKey` leaves the
PBKDF2 output in its buffer. -/
theorem c3_basekey_wipe_witness :
    (derivePasswordKey kdfFailPrims [AlgA.gcm]
        ⟨[1], some (List.replicate 16 2), 1, 8192⟩ (fun _ => 0) 0).2.base
      = some (List.replicate 32 0) ∧
    (derivePasswordKey kdfFailPrims [AlgA.gcm]
        ⟨[1], some (List.replicate 16 2), 1, 8192⟩ (fun _ => 0) 0).1
      = .error .kdfFailure ∧
    (derivePasswordKeyB kdfFailPrims [AlgB.gcm]
        ⟨[1], 1000, some (List.replicate 32 2)⟩ (fun _ => 0) 0).2.base
      = (pbkdf2Derive kdfFailPrims [1] (some (List.replicate 32 2)) 1000
          (fun _ => 0) 0).1 := by
  have h := c3_basekey_wipe_per_variant kdfFailPrims kdfFailPrimsOk [AlgA.gcm]
    ⟨[1], some (List.replicate 16 2), 1, 8192⟩ (fun _ => 0) 0
    [AlgB.gcm] ⟨[1], 1000, some (List.replicate 32 2)⟩ (fun _ => 0) 0
  exact ⟨(h.1 (List.replicate 32 1) (List.replicate 16 2) 0 (by decide)).1,
    (h.1 (List.replicate 32 1) (List.replicate 16 2) 0 (by decide)).2
      .kdfFailure (by decide),
    h.2.2⟩

-- ---------------------------------------------------------------------------
-- Claim C4: error surfaced on cascade authentication failure (corrected)
-- ---------------------------------------------------------------------------

/-- C4 counterexample: the claim says `unlockMasterKey` fails with a
`WrongPasswordOrTampered` error wrapping the inner `AuthFailure`, and that
the surfaced error never distinguishes which layer failed.  On a concrete
two-layer [AES-256-GCM, XChaCha20-Poly1305] cascade, two tampered blobs —
one failing at layer 1 (opened first), one passing layer 1 and failing at
layer 0 — surface two DIFFERENT bare suite authentication errors, each
naming the failing suite: no wrapper exists (the error vocabulary of the
source has none) and the error identifies the failing layer. -/
theorem c4_counterexample :
    unlockMasterKey toyPrims [AlgA.gcm, AlgA.xch] (List.replicate 40 0)
        ⟨List.replicate 16 0, 1, 8192,
          [⟨AlgA.gcm, List.replicate 32 1⟩, ⟨AlgA.xch, List.replicate 32 2⟩]⟩
      = .error (.authFail "XChaCha20-Poly1305") ∧
    unlockMasterKey toyPrims [AlgA.gcm, AlgA.xch]
        (List.replicate 24 0 ++ (List.replicate 28 0 ++ tagXch))
        ⟨List.replicate 16 0, 1, 8192,
          [⟨AlgA.gcm, List.replicate 32 1⟩, ⟨AlgA.xch, List.replicate 32 2⟩]⟩
      = .error (.authFail "AES-256-GCM") ∧
    (CErr.authFail "XChaCha20-Poly1305") ≠ (CErr.authFail "AES-256-GCM") := by
  refine ⟨by decide, by decide, by decide⟩

/-- C4 as amended: when a cascade layer fails authentication while
opening the encrypted master key (or the wrapped content key), the
layer's own error propagates to the caller unchanged — there is no
`WrongPasswordOrTampered` / `WrongKeyOrTampered` wrapper — and every
error a suite can surface carries only the suite's algorithm name, never
a layer index, so two layers running the same algorithm are
indistinguishable, while a mixed-algorithm cascade can reveal the failing
layer through the algorithm tag. -/
theorem c4_auth_error_propagation (P : Prims) (layers : List AlgA)
    (pk : PasswordKeyA) (mk : MasterKeyA) (emk : Bytes) (ed : EncryptedDataA)
    (e : CErr) (a : AlgA) (key d : Bytes) :
    (cascadeDecryptA P (zipKeys layers pk.layerKeys) emk = .error e →
      unlockMasterKey P layers emk pk = .error e) ∧
    (cascadeDecryptA P (zipKeys layers mk.layerKeys) ed.encryptedContentKey
        = .error e →
      (decryptA P layers ed mk).1 = .error e) ∧
    (suiteDecryptA P a d key = .error e →
      e = .invalidKey (algNameA a) 32 key.length ∨
      e = .tooShort (algNameA a) ∨ e = .authFail (algNameA a)) := by
  refine ⟨?_, ?_, ?_⟩
  · intro h
    simp [unlockMasterKey, h]
  · intro h
    simp [decryptA, h]
  · intro h
    cases a with
    | gcm =>
      simp only [suiteDecryptA, aesGcmDecrypt] at h
      split_ifs at h with h1 h2
      · injection h with h'
        exact Or.inl h'.symm
      · injection h with h'
        exact Or.inr (Or.inl h'.symm)
      · cases hdec : P.aesGcmDec key (d.take 12) (d.drop 12) with
        | some pt => rw [hdec] at h; exact Except.noConfusion h
        | none =>
          rw [hdec] at h
          injection h with h'
          exact Or.inr (Or.inr h'.symm)
    | xch =>
      simp only [suiteDecryptA, xchachaDecrypt] at h
      split_ifs at h with h1 h2
      · injection h with h'
        exact Or.inl h'.symm
      · injection h with h'
        exact Or.inr (Or.inl h'.symm)
      · cases hdec : P.xchachaDec key (d.take 24) (d.drop 24) with
        | some pt => rw [hdec] at h; exact Except.noConfusion h
        | none =>
          rw [hdec] at h
          injection h with h'
          exact Or.inr (Or.inr h'.symm)

/-- Witness for the amended C4: the concrete layer-1 authentication
failure propagates through `unlockMasterKey` unchanged. -/
theorem c4_auth_error_propagation_witness :
    unlockMasterKey toyPrims [AlgA.gcm, AlgA.xch] (List.replicate 40 0)
        ⟨List.replicate 16 0, 1, 8192,
          [⟨AlgA.gcm, List.replicate 32 1⟩, ⟨AlgA.xch, List.replicate 32 2⟩]⟩
      = .error (.authFail "XChaCha20-Poly1305") :=
  (c4_auth_error_propagation toyPrims [AlgA.gcm, AlgA.xch]
    ⟨List.replicate 16 0, 1, 8192,
      [⟨AlgA.gcm, List.replicate 32 1⟩, ⟨AlgA.xch, List.replicate 32 2⟩]⟩
    ⟨[]⟩ (List.replicate 40 0) ⟨[], []⟩ (.authFail "XChaCha20-Poly1305")
    AlgA.gcm [] []).1 (by decide)

-- ---------------------------------------------------------------------------
-- Claim C5: factory configuration validation (corrected)
-- ---------------------------------------------------------------------------

/-- C5 counterexample: the claim says the cascade factory rejects layer
lists longer than 10 with `InvalidConfig`.  The WebCrypto-variant factory
(part_000) has no maximum-layer check: an 11-layer configuration is
accepted. -/
theorem c5_counterexample :
    cascadeB (List.replicate 11 AlgB.gcm) = .ok (List.replicate 11 AlgB.gcm) := by
  decide

/-- C5 as amended: the libsodium-variant factory rejects the empty list
('at least one layer') and lists longer than `MAX_LAYERS = 10`
('at most 10 layers'), and accepts every list of 1 to 10 supported
algorithms; the WebCrypto-variant factory rejects only the empty list
and accepts any non-empty list, of any length. -/
theorem c5_factory_validation (lA : List AlgA) (lB : List AlgB) :
    (lA = [] → cascadeA lA
      = .error (.invalidConfig "Cascade requires at least one layer")) ∧
    (lA.length > 10 → cascadeA lA = .error (.invalidConfig
      ("Cascade supports at most 10 layers (got " ++ toString lA.length ++ ")"))) ∧
    (1 ≤ lA.length → lA.length ≤ 10 → cascadeA lA = .ok lA) ∧
    (lB = [] → cascadeB lB
      = .error (.invalidConfig "Cascade requires at least one layer")) ∧
    (1 ≤ lB.length → cascadeB lB = .ok lB) := by
  refine ⟨?_, ?_, ?_, ?_, ?_⟩
  · intro h
    subst h
    rfl
  · intro h
    rw [cascadeA, if_neg (by omega), if_pos h]
  · intro h1 h10
    rw [cascadeA, if_neg (by omega), if_neg (by omega)]
  · intro h
    subst h
    rfl
  · intro h
    rw [cascadeB, if_neg (by omega)]

/-- Witness for the amended C5: a 1-layer variant-A list is accepted, an
11-layer variant-A list is rejected with the 'at most 10 layers' error,
and a 1-layer variant-B list is accepted. -/
theorem c5_factory_validation_witness :
    cascadeA [AlgA.gcm] = .ok [AlgA.gcm] ∧
    cascadeA (List.replicate 11 AlgA.gcm) = .error (.invalidConfig
      ("Cascade supports at most 10 layers (got "
        ++ toString (List.replicate 11 AlgA.gcm).length ++ ")")) ∧
    cascadeB [AlgB.ctrHmac] = .ok [AlgB.ctrHmac] :=
  ⟨(c5_factory_validation [AlgA.gcm] [AlgB.ctrHmac]).2.2.1 (by decide) (by decide),
   (c5_factory_validation (List.replicate 11 AlgA.gcm) []).2.1 (by decide),
   (c5_factory_validation [] [AlgB.ctrHmac]).2.2.2.2 (by decide)⟩

-- ---------------------------------------------------------------------------
-- Claim C6: purpose domain separation of layer keys
-- ---------------------------------------------------------------------------

/-- C6: the three reserved KDF purposes use pairwise distinct 8-character
context strings, `deriveLayerKeys` passes the purpose's context together
with the layer index `i` as the subkey id to the KDF, and therefore —
whenever the KDF separates the three contexts at this `(rootKey, index)`
pair, which is the documented domain-separation property of
`crypto_kdf_derive_from_key` — the layer-`i` keys derived for PASSWORD,
MASTER and CONTENT are pairwise distinct. -/
theorem c6_purpose_domain_separation (P : Prims) (raw : Bytes)
    (layers : List AlgA) (i : Nat) (a : AlgA) (kp km kc : List LayerKeyA)
    (hi : layers[i]? = some a)
    (hp : deriveLayerKeys P raw layers KDF_CONTEXT_PASSWORD = .ok kp)
    (hm : deriveLayerKeys P raw layers KDF_CONTEXT_MASTER = .ok km)
    (hc : deriveLayerKeys P raw layers KDF_CONTEXT_CONTENT = .ok kc)
    (hsep₁ : P.kdf raw KDF_CONTEXT_PASSWORD i (keyLengthA a)
      ≠ P.kdf raw KDF_CONTEXT_MASTER i (keyLengthA a))
    (hsep₂ : P.kdf raw KDF_CONTEXT_MASTER i (keyLengthA a)
      ≠ P.kdf raw KDF_CONTEXT_CONTENT i (keyLengthA a))
    (hsep₃ : P.kdf raw KDF_CONTEXT_PASSWORD i (keyLengthA a)
      ≠ P.kdf raw KDF_CONTEXT_CONTENT i (keyLengthA a)) :
    (KDF_CONTEXT_PASSWORD ≠ KDF_CONTEXT_MASTER ∧
     KDF_CONTEXT_MASTER ≠ KDF_CONTEXT_CONTENT ∧
     KDF_CONTEXT_PASSWORD ≠ KDF_CONTEXT_CONTENT ∧
     KDF_CONTEXT_PASSWORD.length = 8 ∧ KDF_CONTEXT_MASTER.length = 8 ∧
     KDF_CONTEXT_CONTENT.length = 8) ∧
    ∃ kpk kmk kck,
      P.kdf raw KDF_CONTEXT_PASSWORD i (keyLengthA a) = some kpk ∧
      P.kdf raw KDF_CONTEXT_MASTER i (keyLengthA a) = some kmk ∧
      P.kdf raw KDF_CONTEXT_CONTENT i (keyLengthA a) = some kck ∧
      kp[i]? = some ⟨a, kpk⟩ ∧ km[i]? = some ⟨a, kmk⟩ ∧ kc[i]? = some ⟨a, kck⟩ ∧
      kpk ≠ kmk ∧ kmk ≠ kck ∧ kpk ≠ kck := by
  refine ⟨by refine ⟨?_, ?_, ?_, ?_, ?_, ?_⟩ <;> decide, ?_⟩
  obtain ⟨kpk, hkp, hkp'⟩ := deriveLayerKeysGo_get P raw KDF_CONTEXT_PASSWORD 0 layers kp hp i a hi
  obtain ⟨kmk, hkm, hkm'⟩ := deriveLayerKeysGo_get P raw KDF_CONTEXT_MASTER 0 layers km hm i a hi
  obtain ⟨kck, hkc, hkc'⟩ := deriveLayerKeysGo_get P raw KDF_CONTEXT_CONTENT 0 layers kc hc i a hi
  rw [Nat.zero_add] at hkp hkm hkc
  refine ⟨kpk, kmk, kck, hkp, hkm, hkc, hkp', hkm', hkc', ?_, ?_, ?_⟩
  · intro h
    exact hsep₁ (by rw [hkp, hkm, h])
  · intro h
    exact hsep₂ (by rw [hkm, hkc, h])
  · intro h
    exact hsep₃ (by rw [hkp, hkc, h])

/-- Context score of the context-separating toy KDF. -/
def ctxCode (c : String) : Nat :=
  if c = KDF_CONTEXT_PASSWORD then 1
  else if c = KDF_CONTEXT_MASTER then 2
  else if c = KDF_CONTEXT_CONTENT then 3
  else 0

/-- Toy primitives whose KDF backend separates the three reserved
contexts. -/
def sepPrims : Prims :=
  { toyPrims with kdf := fun _ c _ L => some (List.replicate L (ctxCode c)) }

/-- Witness for C6: the separation instantiated at a one-layer cascade
with the context-separating toy KDF. -/
theorem c6_purpose_domain_separation_witness :
    (KDF_CONTEXT_PASSWORD ≠ KDF_CONTEXT_MASTER ∧
     KDF_CONTEXT_MASTER ≠ KDF_CONTEXT_CONTENT ∧
     KDF_CONTEXT_PASSWORD ≠ KDF_CONTEXT_CONTENT ∧
     KDF_CONTEXT_PASSWORD.length = 8 ∧ KDF_CONTEXT_MASTER.length = 8 ∧
     KDF_CONTEXT_CONTENT.length = 8) ∧
    ∃ kpk kmk kck,
      sepPrims.kdf [0] KDF_CONTEXT_PASSWORD 0 (keyLengthA AlgA.gcm) = some kpk ∧
      sepPrims.kdf [0] KDF_CONTEXT_MASTER 0 (keyLengthA AlgA.gcm) = some kmk ∧
      sepPrims.kdf [0] KDF_CONTEXT_CONTENT 0 (keyLengthA AlgA.gcm) = some kck ∧
      ([⟨AlgA.gcm, List.replicate 32 1⟩] : List LayerKeyA)[0]? = some ⟨AlgA.gcm, kpk⟩ ∧
      ([⟨AlgA.gcm, List.replicate 32 2⟩] : List LayerKeyA)[0]? = some ⟨AlgA.gcm, kmk⟩ ∧
      ([⟨AlgA.gcm, List.replicate 32 3⟩] : List LayerKeyA)[0]? = some ⟨AlgA.gcm, kck⟩ ∧
      kpk ≠ kmk ∧ kmk ≠ kck ∧ kpk ≠ kck :=
  c6_purpose_domain_separation sepPrims [0] [AlgA.gcm] 0 AlgA.gcm
    [⟨AlgA.gcm, List.replicate 32 1⟩] [⟨AlgA.gcm, List.replicate 32 2⟩]
    [⟨AlgA.gcm, List.replicate 32 3⟩]
    (by decide) (by decide) (by decide) (by decide)
    (by decide) (by decide) (by decide)

-- ---------------------------------------------------------------------------
-- Claim C7: changePassword preserves the master key
-- ---------------------------------------------------------------------------

/-- C7: for every encrypted master key blob that the old password key
opens, `changePassword` succeeds and produces a blob that
`unlockMasterKey` opens with the new password key to the SAME master key
(so it decrypts all previously encrypted data); the operation reads and
writes no `EncryptedData` — only the master-key wrapper changes (its
type mentions none). -/
theorem c7_changePassword_preserves_master (P : Prims) (hP : PrimsOk P)
    (layers : List AlgA) (emk : Bytes) (oldPk newPk : PasswordKeyA)
    (mk : MasterKeyA) (R : Tape) (pos : Nat)
    (hunlock : unlockMasterKey P layers emk oldPk = .ok mk)
    (hnew : ∀ p ∈ zipKeys layers newPk.layerKeys, (p.2 : Bytes).length = 32) :
    ∃ blob pos',
      changePassword P layers emk oldPk newPk R pos = .ok (blob, pos') ∧
      unlockMasterKey P layers blob newPk = .ok mk := by
  cases hopen : cascadeDecryptA P (zipKeys layers oldPk.layerKeys) emk with
  | error e => simp [unlockMasterKey, hopen] at hunlock
  | ok rawMaster =>
    cases hdl : deriveLayerKeys P rawMaster layers KDF_CONTEXT_MASTER with
    | error e => simp [unlockMasterKey, hopen, hdl] at hunlock
    | ok mlks =>
      have hmk : mk = ⟨mlks⟩ := by
        simp [unlockMasterKey, hopen, hdl] at hunlock
        exact hunlock.symm
      obtain ⟨blob, pos', henc, hdec⟩ :=
        cascadeEncryptA_ok_roundtrip P hP (zipKeys layers newPk.layerKeys) hnew
          rawMaster R pos
      refine ⟨blob, pos', ?_, ?_⟩
      · simp [changePassword, hopen, henc]
      · simp [unlockMasterKey, hdec, hdl, hmk]

/-- Witness for C7: a concrete one-layer password change round trip with
the toy primitives.  The old password layer key is 32 bytes of 1, the new
one 32 bytes of 2; the blob sealed under the old key opens under the new
key to the same master key. -/
theorem c7_changePassword_witness :
    ∃ blob pos',
      changePassword toyPrims [AlgA.gcm]
        (List.replicate 12 0 ++ (List.replicate 32 0 ++ tagGcm))
        ⟨List.replicate 16 0, 1, 8192, [⟨AlgA.gcm, List.replicate 32 1⟩]⟩
        ⟨List.replicate 16 0, 1, 8192, [⟨AlgA.gcm, List.replicate 32 2⟩]⟩
        (fun _ => 0) 0 = .ok (blob, pos') ∧
      unlockMasterKey toyPrims [AlgA.gcm] blob
        ⟨List.replicate 16 0, 1, 8192, [⟨AlgA.gcm, List.replicate 32 2⟩]⟩
        = .ok ⟨[⟨AlgA.gcm, List.replicate 32 9⟩]⟩ :=
  c7_changePassword_preserves_master toyPrims toyPrimsOk [AlgA.gcm]
    (List.replicate 12 0 ++ (List.replicate 32 0 ++ tagGcm))
    ⟨List.replicate 16 0, 1, 8192, [⟨AlgA.gcm, List.replicate 32 1⟩]⟩
    ⟨List.replicate 16 0, 1, 8192, [⟨AlgA.gcm, List.replicate 32 2⟩]⟩
    ⟨[⟨AlgA.gcm, List.replicate 32 9⟩]⟩ (fun _ => 0) 0
    (by decide) (by decide)

-- ---------------------------------------------------------------------------
-- Claim C8: deterministic ciphertext expansion
-- ---------------------------------------------------------------------------

theorem zipKeys_overhead_sum (layers : List AlgA) (lks : List LayerKeyA)
    (h : layers.length ≤ lks.length) :
    ((zipKeys layers lks).map fun p => overheadA p.1).sum
      = (layers.map overheadA).sum := by
  have hfst : (zipKeys layers lks).map Prod.fst = layers := by
    apply List.map_fst_zip
    simpa [zipKeys] using h
  calc ((zipKeys layers lks).map fun p => overheadA p.1).sum
      = (((zipKeys layers lks).map Prod.fst).map overheadA).sum := by
        rw [List.map_map]
        rfl
    _ = (layers.map overheadA).sum := by rw [hfst]

theorem encryptA_ok_inv (P : Prims) (layers : List AlgA) (data : Bytes)
    (mk : MasterKeyA) (R : Tape) (pos : Nat) (ed : EncryptedDataA) (pos₃ : Nat)
    (h : (encryptA P layers data mk R pos).1 = .ok (ed, pos₃)) :
    ∃ clks pos₂,
      deriveLayerKeys P (randomBytes R pos 32).1 layers KDF_CONTEXT_CONTENT
        = .ok clks ∧
      cascadeEncryptA P (zipKeys layers mk.layerKeys) (randomBytes R pos 32).1 R
        (randomBytes R pos 32).2 = .ok (ed.encryptedContentKey, pos₂) ∧
      cascadeEncryptA P (zipKeys layers clks) data R pos₂
        = .ok (ed.ciphertext, pos₃) := by
  cases hd : deriveLayerKeys P (randomBytes R pos 32).1 layers KDF_CONTEXT_CONTENT with
  | error e => simp [encryptA, hd] at h
  | ok clks =>
    cases he : cascadeEncryptA P (zipKeys layers mk.layerKeys)
        (randomBytes R pos 32).1 R (randomBytes R pos 32).2 with
    | error e => simp [encryptA, hd, he] at h
    | ok v =>
      obtain ⟨eck, pos₂⟩ := v
      cases hc : cascadeEncryptA P (zipKeys layers clks) data R pos₂ with
      | error e => simp [encryptA, hd, he, hc] at h
      | ok w =>
        obtain ⟨ct, pos₃'⟩ := w
        simp [encryptA, hd, he, hc] at h
        obtain ⟨h1, h2⟩ := h
        subst h2
        subst h1
        exact ⟨clks, pos₂, rfl, rfl, hc⟩

/-- C8: the cascade output length equals the plaintext length plus the
sum of the per-suite overheads — 12+16 = 28 bytes per AES-256-GCM layer,
24+16 = 40 per XChaCha20-Poly1305 layer (variant A), and 28 per
AES-256-GCM layer, 16+32 = 48 per AES-256-CTR-HMAC layer (variant B) —
and the wrapped content key's length is 32 plus the same sum.  (The
witness instantiates the spec's example: a single-layer AES-256-GCM
ciphertext of a 15-byte plaintext is 43 bytes.) -/
theorem c8_ciphertext_expansion (P : Prims) (hP : PrimsOk P)
    (zsA : List (AlgA × Bytes)) (zsB : List (AlgB × Bytes))
    (dataA dataB : Bytes) (RA RB : Tape) (posA posB : Nat)
    (cA cB : Bytes) (posA' posB' : Nat)
    (layers : List AlgA) (data : Bytes) (mk : MasterKeyA) (R : Tape) (pos : Nat)
    (ed : EncryptedDataA) (pos₃ : Nat) :
    (cascadeEncryptA P zsA dataA RA posA = .ok (cA, posA') →
      cA.length = dataA.length + (zsA.map fun p => overheadA p.1).sum) ∧
    (cascadeEncryptB P zsB dataB RB posB = .ok (cB, posB') →
      cB.length = dataB.length + (zsB.map fun p => overheadB p.1).sum) ∧
    (mk.layerKeys.length = layers.length →
      (encryptA P layers data mk R pos).1 = .ok (ed, pos₃) →
      ed.encryptedContentKey.length = 32 + (layers.map overheadA).sum ∧
      ed.ciphertext.length = data.length + (layers.map overheadA).sum) := by
  refine ⟨?_, ?_, ?_⟩
  · exact cascadeEncryptA_length P hP zsA dataA RA posA cA posA'
  · exact cascadeEncryptB_length P hP zsB dataB RB posB cB posB'
  · intro hmk h
    obtain ⟨clks, pos₂, hd, he, hc⟩ := encryptA_ok_inv P layers data mk R pos ed pos₃ h
    have hclen : clks.length = layers.length :=
      deriveLayerKeysGo_length P (randomBytes R pos 32).1 KDF_CONTEXT_CONTENT 0
        layers clks hd
    constructor
    · have := cascadeEncryptA_length P hP (zipKeys layers mk.layerKeys)
        (randomBytes R pos 32).1 R (randomBytes R pos 32).2
        ed.encryptedContentKey pos₂ he
      rw [this, randomBytes_fst_length,
        zipKeys_overhead_sum layers mk.layerKeys (by omega)]
    · have := cascadeEncryptA_length P hP (zipKeys layers clks) data R pos₂
        ed.ciphertext pos₃ hc
      rw [this, zipKeys_overhead_sum layers clks (by omega)]

/-- Witness for C8: the spec's literal example — one AES-256-GCM layer
over a 15-byte plaintext yields a 43-byte blob (15 + 12 + 16). -/
theorem c8_ciphertext_expansion_witness :
    (List.replicate 12 0 ++ (List.replicate 15 4 ++ tagGcm) : Bytes).length
      = (List.replicate 15 4 : Bytes).length
        + ([(AlgA.gcm, List.replicate 32 1)].map fun p => overheadA p.1).sum ∧
    (List.replicate 12 0 ++ (List.replicate 15 4 ++ tagGcm) : Bytes).length = 43 :=
  ⟨(c8_ciphertext_expansion toyPrims toyPrimsOk
      [(AlgA.gcm, List.replicate 32 1)] [] (List.replicate 15 4) []
      (fun _ => 0) (fun _ => 0) 0 0
      (List.replicate 12 0 ++ (List.replicate 15 4 ++ tagGcm)) [] 12 0
      [] [] ⟨[]⟩ (fun _ => 0) 0 ⟨[], []⟩ 0).1 (by decide),
   by decide⟩

-- ---------------------------------------------------------------------------
-- Claim C9: password-hash parameter validation (corrected)
-- ---------------------------------------------------------------------------

/-- C9 counterexample: the claim says the password-hash step rejects a
salt of the wrong length and cost parameters below the floor.  The
PBKDF2 path (src/src/pbkdf2.ts) performs no validation at all: an 8-byte
salt (the fixed PBKDF2 salt length is 32) together with an iteration
count of 0 is accepted, and hashing proceeds to return a 32-byte key. -/
theorem c9_counterexample :
    pbkdf2Derive toyPrims [1] (some (List.replicate 8 2)) 0 (fun _ => 0) 0
      = (List.replicate 32 9, List.replicate 8 2, 0) := by
  decide

/-- C9 as amended: the Argon2id path validates — a provided salt that is
not exactly 16 bytes, an opsLimit below 1, or a memLimit below 8192 is
rejected with an `InvalidParameter` error before any hashing or
randomness (the result is the same error for every primitive instance
and every entropy tape), and on valid inputs the derived key is exactly
32 bytes.  The PBKDF2 path performs no validation: it always hashes,
returns a 32-byte key, and uses any provided salt verbatim whatever its
length or the iteration count. -/
theorem c9_password_hash_validation (P : Prims) (hP : PrimsOk P)
    (params : PasswordKeyParamsA) (R : Tape) (pos : Nat)
    (password : Bytes) (saltOpt : Option Bytes) (iterations : Nat)
    (RB : Tape) (posB : Nat) :
    (argon2SaltBad params.salt = true →
      ∀ (Q : Prims) (Rx : Tape) (px : Nat), argon2 Q params Rx px
        = .error (.invalidParameter "Argon2: salt must be exactly 16 bytes")) ∧
    (argon2SaltBad params.salt = false → params.opsLimit < 1 →
      ∀ (Q : Prims) (Rx : Tape) (px : Nat), argon2 Q params Rx px
        = .error (.invalidParameter "Argon2: opsLimit must be at least 1")) ∧
    (argon2SaltBad params.salt = false → 1 ≤ params.opsLimit →
        params.memLimit < 8192 →
      ∀ (Q : Prims) (Rx : Tape) (px : Nat), argon2 Q params Rx px
        = .error (.invalidParameter "Argon2: memLimit must be at least 8192")) ∧
    (argon2SaltBad params.salt = false → 1 ≤ params.opsLimit →
        8192 ≤ params.memLimit →
      ∃ key salt pos', argon2 P params R pos = .ok (key, salt, pos') ∧
        key.length = 32) ∧
    ((pbkdf2Derive P password saltOpt iterations RB posB).1.length = 32 ∧
      ∀ s, saltOpt = some s →
        (pbkdf2Derive P password saltOpt iterations RB posB).2.1 = s) := by
  refine ⟨?_, ?_, ?_, ?_, ?_, ?_⟩
  · intro h Q Rx px
    rw [argon2, if_pos h]
  · intro h hops Q Rx px
    rw [argon2, if_neg (by simp [h]), if_pos hops]
  · intro h hops hmem Q Rx px
    rw [argon2, if_neg (by simp [h]), if_neg (by omega), if_pos hmem]
  · intro h hops hmem
    cases hso : params.salt with
    | none =>
      refine ⟨P.pwhash params.password (randomBytes R pos 16).1 params.opsLimit
        params.memLimit, (randomBytes R pos 16).1, (randomBytes R pos 16).2,
        ?_, hP.pwhash_len _ _ _ _⟩
      simp [argon2, hso, argon2SaltBad, Nat.not_lt.mpr hops, Nat.not_lt.mpr hmem]
    | some s =>
      refine ⟨P.pwhash params.password s params.opsLimit params.memLimit, s, pos,
        ?_, hP.pwhash_len _ _ _ _⟩
      have hs : s.length = 16 := by
        have := h
        simp [argon2SaltBad, hso] at this
        exact this
      simp [argon2, hso, argon2SaltBad, hs, Nat.not_lt.mpr hops, Nat.not_lt.mpr hmem]
  · cases saltOpt with
    | none => simp [pbkdf2Derive, hP.pbkdf2_len]
    | some s => simp [pbkdf2Derive, hP.pbkdf2_len]
  · intro s hs
    subst hs
    simp [pbkdf2Derive]

/-- Witness for the amended C9: the no-validation PBKDF2 path accepts an
8-byte salt with 0 iterations, and the Argon2id path succeeds with a
32-byte key on a valid 16-byte salt with minimum cost parameters. -/
theorem c9_password_hash_validation_witness :
    (pbkdf2Derive toyPrims [1] (some (List.replicate 8 2)) 0 (fun _ => 0) 0).1.length
      = 32 ∧
    (∃ key salt pos',
      argon2 toyPrims ⟨[1], some (List.replicate 16 2), 1, 8192⟩ (fun _ => 0) 0
        = .ok (key, salt, pos') ∧ key.length = 32) :=
  ⟨(c9_password_hash_validation toyPrims toyPrimsOk
      ⟨[1], some (List.replicate 16 2), 1, 8192⟩ (fun _ => 0) 0 [1]
      (some (List.replicate 8 2)) 0 (fun _ => 0) 0).2.2.2.2.1,
   (c9_password_hash_validation toyPrims toyPrimsOk
      ⟨[1], some (List.replicate 16 2), 1, 8192⟩ (fun _ => 0) 0 [1]
      (some (List.replicate 8 2)) 0 (fun _ => 0) 0).2.2.2.1
     (by decide) (by decide) (by decide)⟩

-- ---------------------------------------------------------------------------
-- Claim C10: wipe helpers zero every layer key and change nothing else
-- ---------------------------------------------------------------------------

/-- C10: `wipePasswordKey` and `wipeMasterKey` zero every per-layer key
buffer in place — each byte of each `layerKeys[i].key` becomes 0 with the
buffer length unchanged — and change nothing else on the key object: the
salt, the cost parameters, the algorithm tags and the list structure are
exactly as before the call. -/
theorem c10_wipe_helpers (pk : PasswordKeyA) (mk : MasterKeyA) (i : Nat) :
    (wipePasswordKey pk).salt = pk.salt ∧
    (wipePasswordKey pk).opsLimit = pk.opsLimit ∧
    (wipePasswordKey pk).memLimit = pk.memLimit ∧
    (wipePasswordKey pk).layerKeys.length = pk.layerKeys.length ∧
    (wipePasswordKey pk).layerKeys[i]? = pk.layerKeys[i]?.map
      (fun lk => ⟨lk.algorithm, List.replicate lk.key.length 0⟩) ∧
    (wipeMasterKey mk).layerKeys.length = mk.layerKeys.length ∧
    (wipeMasterKey mk).layerKeys[i]? = mk.layerKeys[i]?.map
      (fun lk => ⟨lk.algorithm, List.replicate lk.key.length 0⟩) := by
  refine ⟨rfl, rfl, rfl, by simp [wipePasswordKey], ?_, by simp [wipeMasterKey], ?_⟩
  · simp [wipePasswordKey, List.getElem?_map]
    cases pk.layerKeys[i]? with
    | none => rfl
    | some lk => simp [secureWipe_eq]
  · simp [wipeMasterKey, List.getElem?_map]
    cases mk.layerKeys[i]? with
    | none => rfl
    | some lk => simp [secureWipe_eq]
